import Mathlib

/-!
Group management of the account manager (management/server/group.go).

A shallow embedding of the group operations of `DefaultAccountManager`.

* Go maps (`account.Groups`, `account.Peers`) are association lists read with `mapGet`;
  only the key/value content of a map is observable through the operations.
* The collections that `DeleteGroup` ranges over (`Routes`, `NameServerGroups`, `Policies`,
  `SetupKeys`, `Users`) are lists in the order in which the `range` loop visits them; every
  theorem holds for every such order.
* Pointers to groups are values: a write through `group.Peers = ...` is a write of the map entry.
* The account store, the peer propagation and the event store are external. Their effects are
  recorded in a trace, and the errors of `SaveAccount` and `updateAccountPeers` are given by
  an arbitrary oracle `Env` that may depend on the whole history.
* The account lock is not modelled: one call is executed at a time.
-/

namespace Netbird

/-! ## Data model -/

/-- Group of the peers for ACL (`type Group struct`). -/
structure Group where
  ID : String
  Name : String
  Issued : String
  Peers : List String
deriving DecidableEq, Repr

/-- Modelled from the spec: the type `Peer` is not in src. Only the fields read by `SaveGroup`
are kept: `ID` and the textual form of `IP` (`peer.IP.String()`). -/
structure Peer where
  ID : String
  IP : String
deriving DecidableEq, Repr

/-- Modelled from the spec: the type `route.Route` is not in src; `DeleteGroup` reads `NetID`
and `Groups`. -/
structure Route where
  NetID : String
  Groups : List String
deriving DecidableEq, Repr

/-- Modelled from the spec: the type `NameServerGroup` is not in src; `DeleteGroup` reads `Name`
and `Groups`. -/
structure NameServerGroup where
  Name : String
  Groups : List String
deriving DecidableEq, Repr

/-- Modelled from the spec: the type `PolicyRule` is not in src; `DeleteGroup` reads `Sources`
and `Destinations`. -/
structure PolicyRule where
  Sources : List String
  Destinations : List String
deriving DecidableEq, Repr

/-- Modelled from the spec: the type `Policy` is not in src; `DeleteGroup` reads `Name` and
`Rules`. -/
structure Policy where
  Name : String
  Rules : List PolicyRule
deriving DecidableEq, Repr

/-- Modelled from the spec: the type `SetupKey` is not in src; `DeleteGroup` reads `Name` and
`AutoGroups`. -/
structure SetupKey where
  Name : String
  AutoGroups : List String
deriving DecidableEq, Repr

/-- Modelled from the spec: the type `User` is not in src; `DeleteGroup` reads `Id` and
`AutoGroups`. -/
structure User where
  Id : String
  AutoGroups : List String
deriving DecidableEq, Repr

/-- Modelled from the spec: the type `DNSSettings` is not in src; `DeleteGroup` reads
`DisabledManagementGroups`. -/
structure DNSSettings where
  DisabledManagementGroups : List String
deriving DecidableEq, Repr

/-- Modelled from the spec: the type `Network` is not in src. `Serial` is the configuration
generation counter, taken as an unbounded natural number. -/
structure Network where
  Serial : Nat
deriving DecidableEq, Repr

/-- Modelled from the spec: `Network.IncSerial` is not in src; it increments the generation
counter by one. -/
def Network.IncSerial (n : Network) : Network :=
  { n with Serial := n.Serial + 1 }

/-- Modelled from the spec: the type `Account` is not in src. The fields are those that
group.go reads or writes, and `Id`, the key under which the store keeps the account. -/
structure Account where
  Id : String
  Groups : List (String × Group)
  Peers : List (String × Peer)
  Routes : List Route
  NameServerGroups : List NameServerGroup
  Policies : List Policy
  SetupKeys : List SetupKey
  Users : List User
  DNSSettings : DNSSettings
  Network : Network
deriving DecidableEq, Repr

/-- The activity codes used by group.go (package `activity` is not in src). -/
inductive Activity where
  | GroupCreated
  | GroupDeleted
  | GroupAddedToPeer
  | GroupRemovedFromPeer
deriving DecidableEq, Repr

/-- The arguments of one `am.storeEvent(initiatorID, targetID, accountID, activityID, meta)`
call. `Meta` lists the entries of the map literal in the order of the source text. -/
structure Event where
  InitiatorID : String
  TargetID : String
  AccountID : String
  Activity : Activity
  Meta : List (String × String)
deriving DecidableEq, Repr

/-- Errors returned by the operations: `status.Errorf(status.NotFound, ...)`, `*GroupLinkError`,
and errors handed up from the external collaborators. -/
inductive Error where
  | notFound (msg : String)
  | groupLink (Resource : String) (Name : String)
  | external (msg : String)
deriving DecidableEq, Repr

/-- What a Go call ends with: a returned value with a nil error, a returned error, or a
run-time fault (index or slice bounds out of range). -/
inductive Result (α : Type) where
  | ok (a : α)
  | error (e : Error)
  | crash
deriving DecidableEq, Repr

/-- One call to an external collaborator, with its outcome. -/
inductive Effect where
  | saveAccount (account : Account) (err : Option Error)
  | updateAccountPeers (account : Account) (err : Option Error)
  | storeEvent (event : Event)
deriving DecidableEq, Repr

/-- Everything outside the call: the persisted accounts of the store and the history of
external calls (oldest first). -/
structure World where
  accounts : List (String × Account)
  trace : List Effect
deriving DecidableEq, Repr

/-- The outcomes of the external collaborators: whether `SaveAccount` and `updateAccountPeers`
fail (as a function of the history so far and of the account handed over), and the peer FQDN
computed by `peer.FQDN(am.GetDNSDomain())`. -/
structure Env where
  saveAccountErr : List Effect → Account → Option Error
  updateAccountPeersErr : List Effect → Account → Option Error
  peerFQDN : Peer → String

/-- The state at the return of a call: the returned result, the in-memory account aggregate the
call worked on (`none` when no account was loaded) and the world. -/
structure Outcome (α : Type) where
  result : Result α
  account : Option Account
  world : World

/-! ## Go maps as association lists -/

/-- Map read `m[k]`: the value of the first entry with key `k`. -/
def mapGet {α : Type} : List (String × α) → String → Option α
  | [], _ => none
  | (k, v) :: rest, key => if k = key then some v else mapGet rest key

/-- Map write `m[k] = v`: replaces the entry of `k`, or adds one. -/
def mapSet {α : Type} : List (String × α) → String → α → List (String × α)
  | [], key, val => [(key, val)]
  | (k, v) :: rest, key, val =>
    if k = key then (key, val) :: rest else (k, v) :: mapSet rest key val

/-- Map removal `delete(m, k)`. -/
def mapDelete {α : Type} (m : List (String × α)) (key : String) : List (String × α) :=
  m.filter (fun e => decide (e.1 ≠ key))

/-! ## External collaborators -/

/-- Modelled from the spec: `Store.GetAccount` is not in src. It returns a copy of the persisted
account, or a NotFound error when there is none. -/
def GetAccount (w : World) (accountID : String) : Except Error Account :=
  match mapGet w.accounts accountID with
  | some a => .ok a
  | none => .error (.notFound "account not found")

/-- Modelled from the spec: `Store.SaveAccount` is not in src. On success the whole aggregate
is persisted under its `Id`; on failure nothing is persisted. The call is recorded. -/
def SaveAccount (env : Env) (w : World) (account : Account) : Option Error × World :=
  match env.saveAccountErr w.trace account with
  | some e => (some e, { w with trace := w.trace ++ [.saveAccount account (some e)] })
  | none =>
    (none, { accounts := mapSet w.accounts account.Id account,
             trace := w.trace ++ [.saveAccount account none] })

/-- Modelled from the spec: `updateAccountPeers` is not in src. The call is recorded with the
account handed over; it may fail. -/
def updateAccountPeers (env : Env) (w : World) (account : Account) : Option Error × World :=
  let r := env.updateAccountPeersErr w.trace account
  (r, { w with trace := w.trace ++ [.updateAccountPeers account r] })

/-- Modelled from the spec: `storeEvent` is not in src. The event is handed to the event store;
a failure of the store is absorbed. -/
def storeEvent (w : World) (initiatorID targetID accountID : String) (activityID : Activity)
    (metadata : List (String × String)) : World :=
  { w with trace := w.trace ++ [.storeEvent
      { InitiatorID := initiatorID, TargetID := targetID, AccountID := accountID,
        Activity := activityID, Meta := metadata }] }

/-- The audit events stored so far, oldest first. -/
def World.events (w : World) : List Event :=
  w.trace.filterMap (fun e => match e with
    | .storeEvent ev => some ev
    | _ => none)

/-- The accounts handed to `SaveAccount` so far, oldest first. -/
def World.saveCalls (w : World) : List Account :=
  w.trace.filterMap (fun e => match e with
    | .saveAccount a _ => some a
    | _ => none)

/-- The accounts handed to `updateAccountPeers` so far, oldest first. -/
def World.updateCalls (w : World) : List Account :=
  w.trace.filterMap (fun e => match e with
    | .updateAccountPeers a _ => some a
    | _ => none)

/-! ## group.go -/

/-- `func (g *Group) EventMeta() map[string]any`. -/
def Group.EventMeta (g : Group) : List (String × String) :=
  [("name", g.Name)]

/-- `func (g *Group) Copy() *Group`. -/
def Group.Copy (g : Group) : Group :=
  { ID := g.ID, Name := g.Name, Issued := g.Issued, Peers := g.Peers }

/-- The account after `account.Network.IncSerial()`. -/
def Account.IncSerial (a : Account) : Account :=
  { a with Network := a.Network.IncSerial }

/-- The link check of `DeleteGroup` over `account.Routes`: the first route, in range order, one of
whose `Groups` is `groupID`. -/
def checkRouteLinks (routes : List Route) (groupID : String) : Option Error :=
  match routes with
  | [] => none
  | r :: rest =>
    if r.Groups.any (fun g => g == groupID) then some (.groupLink "route" r.NetID)
    else checkRouteLinks rest groupID

/-- The link check of `DeleteGroup` over `account.NameServerGroups`. -/
def checkDNSLinks (nsGroups : List NameServerGroup) (groupID : String) : Option Error :=
  match nsGroups with
  | [] => none
  | dns :: rest =>
    if dns.Groups.any (fun g => g == groupID) then some (.groupLink "name server groups" dns.Name)
    else checkDNSLinks rest groupID

/-- The two inner loops of the ACL check for one rule: sources first, then destinations. -/
def ruleLinks (rule : PolicyRule) (groupID : String) : Bool :=
  rule.Sources.any (fun src => src == groupID) || rule.Destinations.any (fun dst => dst == groupID)

/-- The link check of `DeleteGroup` over `account.Policies` and their rules. -/
def checkACLLinks (policies : List Policy) (groupID : String) : Option Error :=
  match policies with
  | [] => none
  | policy :: rest =>
    if policy.Rules.any (fun rule => ruleLinks rule groupID) then
      some (.groupLink "policy" policy.Name)
    else checkACLLinks rest groupID

/-- The link check of `DeleteGroup` over `account.SetupKeys`. -/
def checkSetupKeyLinks (setupKeys : List SetupKey) (groupID : String) : Option Error :=
  match setupKeys with
  | [] => none
  | setupKey :: rest =>
    if setupKey.AutoGroups.any (fun grp => grp == groupID) then
      some (.groupLink "setup key" setupKey.Name)
    else checkSetupKeyLinks rest groupID

/-- The link check of `DeleteGroup` over `account.Users`. -/
def checkUserLinks (users : List User) (groupID : String) : Option Error :=
  match users with
  | [] => none
  | user :: rest =>
    if user.AutoGroups.any (fun grp => grp == groupID) then some (.groupLink "user" user.Id)
    else checkUserLinks rest groupID

/-- The link check of `DeleteGroup` over `account.DNSSettings.DisabledManagementGroups`; the
name of the error is the name of the group `g` itself. -/
def checkDisabledManagementGroups (disabled : List String) (g : Group) (groupID : String) :
    Option Error :=
  if disabled.any (fun disabledMgmGrp => disabledMgmGrp == groupID) then
    some (.groupLink "disabled DNS management groups" g.Name)
  else none

/-- The six link checks of `DeleteGroup` in the order of the source; the first conflict is
returned. -/
def checkLinks (account : Account) (g : Group) (groupID : String) : Option Error :=
  match checkRouteLinks account.Routes groupID with
  | some e => some e
  | none =>
  match checkDNSLinks account.NameServerGroups groupID with
  | some e => some e
  | none =>
  match checkACLLinks account.Policies groupID with
  | some e => some e
  | none =>
  match checkSetupKeyLinks account.SetupKeys groupID with
  | some e => some e
  | none =>
  match checkUserLinks account.Users groupID with
  | some e => some e
  | none => checkDisabledManagementGroups account.DNSSettings.DisabledManagementGroups g groupID

/-- `func (am *DefaultAccountManager) DeleteGroup(accountId, userId, groupID string) error`. -/
def DeleteGroup (env : Env) (w : World) (accountId userId groupID : String) : Outcome Unit :=
  match GetAccount w accountId with
  | .error e => ⟨.error e, none, w⟩
  | .ok account =>
    match mapGet account.Groups groupID with
    | none => ⟨.ok (), some account, w⟩
    | some g =>
      match checkLinks account g groupID with
      | some e => ⟨.error e, some account, w⟩
      | none =>
        let account1 := { account with Groups := mapDelete account.Groups groupID }
        let account2 := account1.IncSerial
        match SaveAccount env w account2 with
        | (some e, w1) => ⟨.error e, some account2, w1⟩
        | (none, w1) =>
          let w2 := storeEvent w1 userId groupID accountId .GroupDeleted g.EventMeta
          match updateAccountPeers env w2 account2 with
          | (some e, w3) => ⟨.error e, some account2, w3⟩
          | (none, w3) => ⟨.ok (), some account2, w3⟩

/-- `func (am *DefaultAccountManager) GetGroup(accountID, groupID string) (*Group, error)`. -/
def GetGroup (w : World) (accountID groupID : String) : Outcome Group :=
  match GetAccount w accountID with
  | .error e => ⟨.error e, none, w⟩
  | .ok account =>
    match mapGet account.Groups groupID with
    | some group => ⟨.ok group, some account, w⟩
    | none =>
      ⟨.error (.notFound ("group with ID " ++ groupID ++ " not found")), some account, w⟩

/-- The set `mb` that `difference` builds from `b`: a map from string to `struct{}`. -/
def differenceSet (b : List String) : List (String × Unit) :=
  b.foldl (fun mb x => mapSet mb x ()) []

/-- `func difference(a, b []string) []string`: the elements in `a` that are not in `b`. -/
def difference (a b : List String) : List String :=
  let mb := differenceSet b
  a.foldl (fun diff x => if (mapGet mb x).isSome then diff else diff ++ [x]) []

/-- The meta of a `GroupAddedToPeer` or `GroupRemovedFromPeer` event. -/
def peerEventMeta (env : Env) (newGroup : Group) (peer : Peer) : List (String × String) :=
  [("group", newGroup.Name), ("group_id", newGroup.ID), ("peer_ip", peer.IP),
   ("peer_fqdn", env.peerFQDN peer)]

/-- The two event loops of `SaveGroup`: for each peer ID of the list, in order, an event with
the given activity is stored for the peer found under that ID in `account.Peers`; an ID without
a peer is logged and skipped. -/
def storePeerEvents (env : Env) (account : Account) (userID accountID : String)
    (newGroup : Group) (activityID : Activity) : List String → World → World
  | [], w => w
  | p :: rest, w =>
    match mapGet account.Peers p with
    | none => storePeerEvents env account userID accountID newGroup activityID rest w
    | some peer =>
      storePeerEvents env account userID accountID newGroup activityID rest
        (storeEvent w userID peer.ID accountID activityID (peerEventMeta env newGroup peer))

/-- `func (am *DefaultAccountManager) SaveGroup(accountID, userID string, newGroup *Group) error`
for a non-nil `newGroup`. -/
def SaveGroup (env : Env) (w : World) (accountID userID : String) (newGroup : Group) :
    Outcome Unit :=
  match GetAccount w accountID with
  | .error e => ⟨.error e, none, w⟩
  | .ok account0 =>
    let old := mapGet account0.Groups newGroup.ID
    let account1 := { account0 with Groups := mapSet account0.Groups newGroup.ID newGroup }
    let account := account1.IncSerial
    match SaveAccount env w account with
    | (some e, w1) => ⟨.error e, some account, w1⟩
    | (none, w1) =>
      match updateAccountPeers env w1 account with
      | (some e, w2) => ⟨.error e, some account, w2⟩
      | (none, w2) =>
        match old with
        | some oldGroup =>
          let addedPeers := difference newGroup.Peers oldGroup.Peers
          let removedPeers := difference oldGroup.Peers newGroup.Peers
          let w3 := storePeerEvents env account userID accountID newGroup .GroupAddedToPeer
            addedPeers w2
          let w4 := storePeerEvents env account userID accountID newGroup .GroupRemovedFromPeer
            removedPeers w3
          ⟨.ok (), some account, w4⟩
        | none =>
          let addedPeers := newGroup.Peers
          let w3 := storeEvent w2 userID newGroup.ID accountID .GroupCreated newGroup.EventMeta
          let w4 := storePeerEvents env account userID accountID newGroup .GroupAddedToPeer
            addedPeers w3
          ⟨.ok (), some account, w4⟩

/-- `type GroupUpdateOperationType int`. -/
abbrev GroupUpdateOperationType := Int

/-- Name update operation. -/
def UpdateGroupName : GroupUpdateOperationType := 0

/-- Insert peers to group operation. -/
def InsertPeersToGroup : GroupUpdateOperationType := 1

/-- Remove peers from group operation. -/
def RemovePeersFromGroup : GroupUpdateOperationType := 2

/-- Replacement of the group peers list. -/
def UpdateGroupPeers : GroupUpdateOperationType := 3

/-- Operation object with type and values to be applied (`type GroupUpdateOperation struct`);
`OpType` is the field `Type` of the source. -/
structure GroupUpdateOperation where
  OpType : GroupUpdateOperationType
  Values : List String
deriving DecidableEq, Repr

/-- Modelled from the spec: `removeFromList` is not in src. It removes every element of the
second list from the first and keeps the order of the rest. -/
def removeFromList (inputList toRemove : List String) : List String :=
  inputList.filter (fun item => !toRemove.contains item)

/-- One pass of the `switch operation.OpType` of `UpdateGroup`; `none` is the run-time fault of
`operation.Values[0]` on empty `Values`. -/
def applyOperation (group : Group) (operation : GroupUpdateOperation) : Option Group :=
  if operation.OpType = UpdateGroupName then
    match operation.Values with
    | [] => none
    | name :: _ => some { group with Name := name }
  else if operation.OpType = UpdateGroupPeers then
    some { group with Peers := operation.Values }
  else if operation.OpType = InsertPeersToGroup then
    let sourceList := group.Peers
    let resultList := removeFromList sourceList operation.Values
    some { group with Peers := resultList ++ operation.Values }
  else if operation.OpType = RemovePeersFromGroup then
    let sourceList := group.Peers
    let resultList := removeFromList sourceList operation.Values
    some { group with Peers := resultList }
  else some group

/-- The loop `for _, operation := range operations` of `UpdateGroup`. -/
def applyOperations (group : Group) : List GroupUpdateOperation → Option Group
  | [] => some group
  | operation :: rest =>
    match applyOperation group operation with
    | none => none
    | some group1 => applyOperations group1 rest

/-- `func (am *DefaultAccountManager) UpdateGroup(accountID string, groupID string,
operations []GroupUpdateOperation) (*Group, error)`. -/
def UpdateGroup (env : Env) (w : World) (accountID groupID : String)
    (operations : List GroupUpdateOperation) : Outcome Group :=
  match GetAccount w accountID with
  | .error e => ⟨.error e, none, w⟩
  | .ok account0 =>
    match mapGet account0.Groups groupID with
    | none =>
      ⟨.error (.notFound ("group with ID " ++ groupID ++ " no longer exists")), some account0, w⟩
    | some groupToUpdate =>
      match applyOperations groupToUpdate.Copy operations with
      | none => ⟨.crash, some account0, w⟩
      | some group =>
        let account1 := { account0 with Groups := mapSet account0.Groups groupID group }
        let account := account1.IncSerial
        match SaveAccount env w account with
        | (some e, w1) => ⟨.error e, some account, w1⟩
        | (none, w1) =>
          match updateAccountPeers env w1 account with
          | (some e, w2) => ⟨.error e, some account, w2⟩
          | (none, w2) => ⟨.ok group, some account, w2⟩

/-- The values of a map in the order of a `range` loop over it; an entry whose key already
occurred is not part of the map. -/
def mapValues {α : Type} : List (String × α) → List α
  | [] => []
  | (k, v) :: rest => v :: mapValues (mapDelete rest k)
termination_by m => m.length
decreasing_by
  simp only [mapDelete, List.length_cons]
  exact Nat.lt_succ_of_le (List.length_filter_le _ _)

/-- `func (am *DefaultAccountManager) ListGroups(accountID string) ([]*Group, error)`. -/
def ListGroups (w : World) (accountID : String) : Outcome (List Group) :=
  match GetAccount w accountID with
  | .error e => ⟨.error e, none, w⟩
  | .ok account => ⟨.ok (mapValues account.Groups), some account, w⟩

/-- `func (am *DefaultAccountManager) GroupAddPeer(accountID, groupID, peerID string) error`. -/
def GroupAddPeer (env : Env) (w : World) (accountID groupID peerID : String) : Outcome Unit :=
  match GetAccount w accountID with
  | .error e => ⟨.error e, none, w⟩
  | .ok account0 =>
    match mapGet account0.Groups groupID with
    | none =>
      ⟨.error (.notFound ("group with ID " ++ groupID ++ " not found")), some account0, w⟩
    | some group =>
      let add := !(group.Peers.any (fun itemID => itemID == peerID))
      let group1 := if add then { group with Peers := group.Peers ++ [peerID] } else group
      let account1 := { account0 with Groups := mapSet account0.Groups groupID group1 }
      let account := account1.IncSerial
      match SaveAccount env w account with
      | (some e, w1) => ⟨.error e, some account, w1⟩
      | (none, w1) =>
        match updateAccountPeers env w1 account with
        | (some e, w2) => ⟨.error e, some account, w2⟩
        | (none, w2) => ⟨.ok (), some account, w2⟩

/-- How the `range` loop of `GroupDeletePeer` ends, with the value of `group.Peers` and the
world at that point: it ran to its end, it returned the error of `SaveAccount`, or a slice
expression was out of range. -/
inductive LoopEnd where
  | done (peers : List String) (w : World)
  | failed (e : Error) (peers : List String) (w : World)
  | crashed (peers : List String) (w : World)
deriving DecidableEq, Repr

/-- The in-memory account after the assignment `group.Peers = peers` to the group stored under
`groupID`. -/
def setGroupPeers (account : Account) (groupID : String) (group : Group) (peers : List String) :
    Account :=
  { account with Groups := mapSet account.Groups groupID { group with Peers := peers } }

/-- The loop `for i, itemID := range group.Peers` of `GroupDeletePeer`.

The `range` expression is evaluated once, so the loop visits the indices `i` below the original
length (`fuel` counts the iterations left) and reads `itemID` from the shared backing array,
whose current content is `backing`. `peers` is the current value of `group.Peers`, the first
`peers.length` cells of `backing`. On a match, `group.Peers[:i]` is the first `i` cells of the
backing array (allowed up to the capacity), `group.Peers[i+1:]` is out of range when
`i + 1 > len(group.Peers)`, and `append` writes its result in place. -/
def deletePeerLoop (env : Env) (account : Account) (groupID : String) (group : Group)
    (peerKey : String) : Nat → Nat → List String → List String → World → LoopEnd
  | 0, _, _, peers, w => .done peers w
  | fuel + 1, i, backing, peers, w =>
    match backing[i]? with
    | none => .done peers w
    | some itemID =>
      if itemID = peerKey then
        if peers.length < i + 1 then .crashed peers w
        else
          let peers1 := backing.take i ++ peers.drop (i + 1)
          let backing1 := peers1 ++ backing.drop peers1.length
          match SaveAccount env w (setGroupPeers account groupID group peers1) with
          | (some e, w1) => .failed e peers1 w1
          | (none, w1) =>
            deletePeerLoop env account groupID group peerKey fuel (i + 1) backing1 peers1 w1
      else deletePeerLoop env account groupID group peerKey fuel (i + 1) backing peers w

/-- `func (am *DefaultAccountManager) GroupDeletePeer(accountID, groupID, peerKey string)
error`. -/
def GroupDeletePeer (env : Env) (w : World) (accountID groupID peerKey : String) :
    Outcome Unit :=
  match GetAccount w accountID with
  | .error e => ⟨.error e, none, w⟩
  | .ok account0 =>
    match mapGet account0.Groups groupID with
    | none =>
      ⟨.error (.notFound ("group with ID " ++ groupID ++ " not found")), some account0, w⟩
    | some group =>
      let account := account0.IncSerial
      match deletePeerLoop env account groupID group peerKey group.Peers.length 0
          group.Peers group.Peers w with
      | .crashed peers w1 => ⟨.crash, some (setGroupPeers account groupID group peers), w1⟩
      | .failed e peers w1 => ⟨.error e, some (setGroupPeers account groupID group peers), w1⟩
      | .done peers w1 =>
        let account2 := setGroupPeers account groupID group peers
        match updateAccountPeers env w1 account2 with
        | (some e, w2) => ⟨.error e, some account2, w2⟩
        | (none, w2) => ⟨.ok (), some account2, w2⟩

/-- `func (am *DefaultAccountManager) GroupListPeers(accountID, groupID string) ([]*Peer,
error)`. -/
def GroupListPeers (w : World) (accountID groupID : String) : Outcome (List Peer) :=
  match GetAccount w accountID with
  | .error _ => ⟨.error (.notFound "account not found"), none, w⟩
  | .ok account =>
    match mapGet account.Groups groupID with
    | none =>
      ⟨.error (.notFound ("group with ID " ++ groupID ++ " not found")), some account, w⟩
    | some group =>
      ⟨.ok (group.Peers.filterMap (fun peerID => mapGet account.Peers peerID)), some account, w⟩

/-! ## Sample data -/

/-- An environment in which the external collaborators never fail. -/
def envOk : Env :=
  { saveAccountErr := fun _ _ => none,
    updateAccountPeersErr := fun _ _ => none,
    peerFQDN := fun p => p.ID ++ ".netbird.cloud" }

/-- An environment in which `updateAccountPeers` always fails. -/
def envUpdateFails : Env :=
  { envOk with updateAccountPeersErr := fun _ _ => some (.external "update failed") }

/-- An account with one group `g1` of peers `p1`, `p2`, and nothing else. -/
def sampleAccount : Account :=
  { Id := "acc", Groups := [("g1", { ID := "g1", Name := "G1", Issued := "api", Peers := ["p1", "p2"] })],
    Peers := [("p1", { ID := "p1", IP := "100.64.0.1" }), ("p2", { ID := "p2", IP := "100.64.0.2" }),
              ("p3", { ID := "p3", IP := "100.64.0.3" })],
    Routes := [], NameServerGroups := [], Policies := [], SetupKeys := [], Users := [],
    DNSSettings := { DisabledManagementGroups := [] }, Network := { Serial := 7 } }

/-- A world whose store holds `sampleAccount` and in which nothing has happened yet. -/
def sampleWorld : World :=
  { accounts := [("acc", sampleAccount)], trace := [] }

/-- A new value for group `g1` in which peer `p3` occurs twice. -/
def dupGroup : Group :=
  { ID := "g1", Name := "G1", Issued := "api", Peers := ["p2", "p3", "p3"] }

/-- A group that is not in the sample account; peer `p7` is not a peer of the account. -/
def freshGroup : Group :=
  { ID := "g2", Name := "G2", Issued := "api", Peers := ["p3", "p7", "p1"] }

/-- The peer of the sample account with the given ID. -/
def samplePeerOf (p : String) : Peer :=
  (mapGet sampleAccount.Peers p).getD { ID := p, IP := "" }

/-- The sample account with group `g1` referenced by a route and by a user. -/
def linkedAccount : Account :=
  { sampleAccount with
    Routes := [{ NetID := "net1", Groups := ["g0", "g1"] }],
    Users := [{ Id := "user1", AutoGroups := ["g1"] }] }

/-- A world whose store holds `linkedAccount`. -/
def linkedWorld : World :=
  { accounts := [("acc", linkedAccount)], trace := [] }

/-! ## Properties stated by the specification -/

/-- Some route lists `groupID` among its groups. -/
def refRoute (account : Account) (groupID : String) : Prop :=
  ∃ r ∈ account.Routes, groupID ∈ r.Groups

/-- Some name-server group lists `groupID` among its groups. -/
def refNameServerGroup (account : Account) (groupID : String) : Prop :=
  ∃ dns ∈ account.NameServerGroups, groupID ∈ dns.Groups

/-- Some rule of some policy lists `groupID` among its sources or destinations. -/
def refPolicy (account : Account) (groupID : String) : Prop :=
  ∃ policy ∈ account.Policies, ∃ rule ∈ policy.Rules,
    groupID ∈ rule.Sources ∨ groupID ∈ rule.Destinations

/-- Some setup key lists `groupID` among its auto groups. -/
def refSetupKey (account : Account) (groupID : String) : Prop :=
  ∃ setupKey ∈ account.SetupKeys, groupID ∈ setupKey.AutoGroups

/-- Some user lists `groupID` among its auto groups. -/
def refUser (account : Account) (groupID : String) : Prop :=
  ∃ user ∈ account.Users, groupID ∈ user.AutoGroups

/-- The DNS settings list `groupID` among the groups excluded from management. -/
def refDisabledManagement (account : Account) (groupID : String) : Prop :=
  groupID ∈ account.DNSSettings.DisabledManagementGroups

/-- The group ID is referenced by at least one resource of the account. -/
def Referenced (account : Account) (groupID : String) : Prop :=
  refRoute account groupID ∨ refNameServerGroup account groupID ∨ refPolicy account groupID ∨
  refSetupKey account groupID ∨ refUser account groupID ∨ refDisabledManagement account groupID

instance (account : Account) (groupID : String) : Decidable (refRoute account groupID) :=
  inferInstanceAs (Decidable (∃ r ∈ account.Routes, groupID ∈ r.Groups))

instance (account : Account) (groupID : String) :
    Decidable (refNameServerGroup account groupID) :=
  inferInstanceAs (Decidable (∃ dns ∈ account.NameServerGroups, groupID ∈ dns.Groups))

instance (account : Account) (groupID : String) : Decidable (refPolicy account groupID) :=
  inferInstanceAs (Decidable (∃ policy ∈ account.Policies, ∃ rule ∈ policy.Rules,
    groupID ∈ rule.Sources ∨ groupID ∈ rule.Destinations))

instance (account : Account) (groupID : String) : Decidable (refSetupKey account groupID) :=
  inferInstanceAs (Decidable (∃ setupKey ∈ account.SetupKeys, groupID ∈ setupKey.AutoGroups))

instance (account : Account) (groupID : String) : Decidable (refUser account groupID) :=
  inferInstanceAs (Decidable (∃ user ∈ account.Users, groupID ∈ user.AutoGroups))

instance (account : Account) (groupID : String) :
    Decidable (refDisabledManagement account groupID) :=
  inferInstanceAs (Decidable (groupID ∈ account.DNSSettings.DisabledManagementGroups))

instance (account : Account) (groupID : String) : Decidable (Referenced account groupID) :=
  inferInstanceAs (Decidable (refRoute account groupID ∨ refNameServerGroup account groupID ∨
    refPolicy account groupID ∨ refSetupKey account groupID ∨ refUser account groupID ∨
    refDisabledManagement account groupID))

/-- The pair `(resource, name)` names a resource of the account that references `groupID`; for
the DNS management exclusion the name is the name of the group `g` itself. -/
def NamesLink (account : Account) (g : Group) (groupID resource name : String) : Prop :=
  (resource = "route" ∧ ∃ r ∈ account.Routes, groupID ∈ r.Groups ∧ name = r.NetID) ∨
  (resource = "name server groups" ∧
    ∃ dns ∈ account.NameServerGroups, groupID ∈ dns.Groups ∧ name = dns.Name) ∨
  (resource = "policy" ∧
    ∃ policy ∈ account.Policies, (∃ rule ∈ policy.Rules,
      groupID ∈ rule.Sources ∨ groupID ∈ rule.Destinations) ∧ name = policy.Name) ∨
  (resource = "setup key" ∧
    ∃ setupKey ∈ account.SetupKeys, groupID ∈ setupKey.AutoGroups ∧ name = setupKey.Name) ∨
  (resource = "user" ∧ ∃ user ∈ account.Users, groupID ∈ user.AutoGroups ∧ name = user.Id) ∨
  (resource = "disabled DNS management groups" ∧
    groupID ∈ account.DNSSettings.DisabledManagementGroups ∧ name = g.Name)

/-- The resource kind the specification expects in the link error: the earliest referencing
kind in the order route, name server groups, policy, setup key, user, disabled DNS management
groups. -/
def expectedResource (account : Account) (groupID : String) : String :=
  if refRoute account groupID then "route"
  else if refNameServerGroup account groupID then "name server groups"
  else if refPolicy account groupID then "policy"
  else if refSetupKey account groupID then "setup key"
  else if refUser account groupID then "user"
  else "disabled DNS management groups"

/-- The account that `DeleteGroup` persists: the group removed, the generation incremented. -/
def deletedAccount (account : Account) (groupID : String) : Account :=
  ({ account with Groups := mapDelete account.Groups groupID }).IncSerial

/-- The audit event of `DeleteGroup` for the deleted group `g`. -/
def groupDeletedEvent (userId groupID accountId : String) (g : Group) : Event :=
  { InitiatorID := userId, TargetID := groupID, AccountID := accountId,
    Activity := .GroupDeleted, Meta := [("name", g.Name)] }

/-- The account that `SaveGroup` persists: the group stored under its ID, the generation
incremented. -/
def savedAccount (account : Account) (newGroup : Group) : Account :=
  ({ account with Groups := mapSet account.Groups newGroup.ID newGroup }).IncSerial

/-- The audit event of `SaveGroup` for a created group. -/
def groupCreatedEvent (userID accountID : String) (newGroup : Group) : Event :=
  { InitiatorID := userID, TargetID := newGroup.ID, AccountID := accountID,
    Activity := .GroupCreated, Meta := [("name", newGroup.Name)] }

/-- The audit event of `SaveGroup` for a peer added to or removed from the group. -/
def peerEvent (env : Env) (userID accountID : String) (newGroup : Group)
    (activityID : Activity) (peer : Peer) : Event :=
  { InitiatorID := userID, TargetID := peer.ID, AccountID := accountID,
    Activity := activityID,
    Meta := [("group", newGroup.Name), ("group_id", newGroup.ID), ("peer_ip", peer.IP),
             ("peer_fqdn", env.peerFQDN peer)] }

/-- One peer event for each entry of `ids`, in order, that is a key of `account.Peers`. -/
def peerEvents (env : Env) (account : Account) (userID accountID : String) (newGroup : Group)
    (activityID : Activity) (ids : List String) : List Event :=
  ids.filterMap (fun p =>
    (mapGet account.Peers p).map (peerEvent env userID accountID newGroup activityID))

/-- The audit events of a successful `SaveGroup`, in the order in which they are stored. -/
def saveGroupEvents (env : Env) (account : Account) (userID accountID : String)
    (newGroup : Group) : List Event :=
  match mapGet account.Groups newGroup.ID with
  | some oldGroup =>
    peerEvents env account userID accountID newGroup .GroupAddedToPeer
      (difference newGroup.Peers oldGroup.Peers) ++
    peerEvents env account userID accountID newGroup .GroupRemovedFromPeer
      (difference oldGroup.Peers newGroup.Peers)
  | none =>
    groupCreatedEvent userID accountID newGroup ::
      peerEvents env account userID accountID newGroup .GroupAddedToPeer newGroup.Peers

/-- The number of stored events with the given activity and target. -/
def countEvents (events : List Event) (activityID : Activity) (targetID : String) : Nat :=
  (events.filter (fun e => decide (e.Activity = activityID ∧ e.TargetID = targetID))).length

/-- The account that `UpdateGroup` and `GroupAddPeer` persist: `group` stored under `groupID`,
the generation incremented. -/
def updatedAccount (account : Account) (groupID : String) (group : Group) : Account :=
  ({ account with Groups := mapSet account.Groups groupID group }).IncSerial

/-- The group after the membership loop of `GroupAddPeer`. -/
def addPeer (group : Group) (peerID : String) : Group :=
  if !(group.Peers.any (fun itemID => itemID == peerID)) then
    { group with Peers := group.Peers ++ [peerID] }
  else group

/-- The common tail of the mutating operations: `SaveAccount`, then `updateAccountPeers`,
each error returned at once, then the result `r`. -/
def persistAndPropagate {α : Type} (env : Env) (w : World) (account : Account) (r : α) :
    Outcome α :=
  match SaveAccount env w account with
  | (some e, w1) => ⟨.error e, some account, w1⟩
  | (none, w1) =>
    match updateAccountPeers env w1 account with
    | (some e, w2) => ⟨.error e, some account, w2⟩
    | (none, w2) => ⟨.ok r, some account, w2⟩

/-- The world at the end of the loop of `GroupDeletePeer`. -/
def LoopEnd.world : LoopEnd → World
  | .done _ w => w
  | .failed _ _ w => w
  | .crashed _ w => w

/-- The generation counter of the in-memory account at the return of a call. -/
def Outcome.serial {α : Type} (out : Outcome α) : Option Nat :=
  out.account.map (fun a => a.Network.Serial)

/-- The generation counter of the account persisted under `id`. -/
def World.storedSerial (w : World) (id : String) : Option Nat :=
  (mapGet w.accounts id).map (fun a => a.Network.Serial)

/-- An environment in which `SaveAccount` always fails. -/
def envSaveFails : Env :=
  { envOk with saveAccountErr := fun _ _ => some (.external "save failed") }

/-- The external collaborators never fail. -/
def Env.succeeds (env : Env) : Prop :=
  ∀ t a, env.saveAccountErr t a = none ∧ env.updateAccountPeersErr t a = none

/-- The call returned the error `e` and left no trace but the failed `SaveAccount`: the
persisted accounts (hence their generation counters) are those before the call,
`updateAccountPeers` was not called and no audit event was stored. -/
def AbortedBySave {α : Type} (out : Outcome α) (w : World) (e : Error) : Prop :=
  out.result = .error e ∧ out.world.accounts = w.accounts ∧
  (∀ id, out.world.storedSerial id = w.storedSerial id) ∧
  out.world.updateCalls = w.updateCalls ∧ out.world.events = w.events

/-- The call failed with a NotFound error and had no effect: the world (persisted accounts,
history of `SaveAccount` and `updateAccountPeers` calls, audit events) and the loaded account
are as before. -/
def NotFoundNoEffect {α : Type} (out : Outcome α) (w : World) (account : Account) : Prop :=
  (∃ msg, out.result = .error (.notFound msg)) ∧ out.world = w ∧ out.account = some account ∧
  out.world.saveCalls = w.saveCalls ∧ out.world.updateCalls = w.updateCalls ∧
  out.world.events = w.events

/-- Key/ID consistency of the group collection: every key maps to a group with that ID. -/
def KeysConsistent (account : Account) : Prop :=
  ∀ k g, mapGet account.Groups k = some g → g.ID = k

/-- Key/ID consistency at the return of a call: it holds of the in-memory account the call
worked on and of the account the store returns for `accountID`. -/
def PreservesKeys {α : Type} (out : Outcome α) (accountID : String) : Prop :=
  (∀ a, out.account = some a → KeysConsistent a) ∧
  (∀ a, GetAccount out.world accountID = .ok a → KeysConsistent a)

/-! ## activity/sqlite/sqlite.go -/

/-- Modelled from the spec: the type `activity.Event` is not in src. The fields are those that
`processResult` and `Save` read and write. `Timestamp` is the value of the `timestamp` column
as the engine compares it, `Activity` the integer code, and `Meta` the mapping that the JSON
text of the `meta` column encodes (the empty text is the empty mapping). -/
structure sqlite.Event where
  Timestamp : Nat
  Activity : Int
  ID : Nat
  InitiatorID : String
  TargetID : String
  AccountID : String
  Meta : List (String × String)
deriving DecidableEq, Repr

/-- The state behind `type Store struct`: the rows of the `events` table in the order of
insertion, the last id given out by `AUTOINCREMENT`, and whether `Close` was called. -/
structure sqlite.Store where
  rows : List sqlite.Event
  lastID : Nat
  closed : Bool
deriving DecidableEq, Repr

/-- The SQL engine is external: `orderBy descending rows` is the order in which it returns
`rows` for `ORDER BY timestamp DESC` (`descending = true`) or `ORDER BY timestamp ASC`. -/
structure sqlite.Engine where
  orderBy : Bool → List sqlite.Event → List sqlite.Event

/-- What `ORDER BY timestamp` asks of the engine: the same rows, with timestamps that never
increase (`DESC`) or never decrease (`ASC`). The order among rows with equal timestamps is
left to the engine. -/
def sqlite.Engine.Valid (eng : sqlite.Engine) : Prop :=
  ∀ rows,
    (eng.orderBy true rows).Perm rows ∧
    (eng.orderBy true rows).Pairwise (fun a b => b.Timestamp ≤ a.Timestamp) ∧
    (eng.orderBy false rows).Perm rows ∧
    (eng.orderBy false rows).Pairwise (fun a b => a.Timestamp ≤ b.Timestamp)

/-- The rows of `selectDescQuery` and `selectAscQuery`: those with the given `account_id`,
ordered by the engine, without the first `offset` ones, at most `limit` of them (a negative
`OFFSET` skips nothing, a negative `LIMIT` is no limit). -/
def sqlite.selectQuery (eng : sqlite.Engine) (rows : List sqlite.Event) (descending : Bool)
    (accountID : String) (limit offset : Int) : List sqlite.Event :=
  let selected := rows.filter (fun r => decide (r.AccountID = accountID))
  let ordered := eng.orderBy descending selected
  let skipped := ordered.drop offset.toNat
  if limit < 0 then skipped else skipped.take limit.toNat

/-- `func processResult(result *sql.Rows) ([]*activity.Event, error)` on rows written by
`Save`: one event per row, in the order of the rows. -/
def sqlite.processResult (result : List sqlite.Event) : Except Error (List sqlite.Event) :=
  .ok (result.map (fun row =>
    { Timestamp := row.Timestamp, Activity := row.Activity, ID := row.ID,
      InitiatorID := row.InitiatorID, TargetID := row.TargetID, AccountID := row.AccountID,
      Meta := row.Meta }))

/-- `func (store *Store) Get(accountID string, offset, limit int, descending bool)
([]*activity.Event, error)`. -/
def sqlite.Store.Get (eng : sqlite.Engine) (store : sqlite.Store) (accountID : String)
    (offset limit : Int) (descending : Bool) : Except Error (List sqlite.Event) :=
  if store.closed then .error (.external "sql: database is closed")
  else sqlite.processResult (sqlite.selectQuery eng store.rows descending accountID limit offset)

/-- `func (store *Store) Save(event *activity.Event) (*activity.Event, error)`: the row is
appended with the next id, and a copy of the event with that id is returned. -/
def sqlite.Store.Save (store : sqlite.Store) (event : sqlite.Event) :
    Except Error (sqlite.Event × sqlite.Store) :=
  if store.closed then .error (.external "sql: database is closed")
  else
    let id := store.lastID + 1
    let eventCopy := { event with ID := id }
    .ok (eventCopy, { store with rows := store.rows ++ [eventCopy], lastID := id })

/-- `func (store *Store) Close() error`. -/
def sqlite.Store.Close (store : sqlite.Store) : sqlite.Store :=
  { store with closed := true }

/-- An engine that sorts by insertion and keeps rows with equal timestamps in the order of the
table, for both directions. -/
def sqlite.stableEngine : sqlite.Engine :=
  { orderBy := fun descending rows =>
      if descending then rows.insertionSort (fun a b => b.Timestamp ≤ a.Timestamp)
      else rows.insertionSort (fun a b => a.Timestamp ≤ b.Timestamp) }

/-- A store with three events of account `acc`; the first two have the same timestamp. -/
def sqlite.tieStore : sqlite.Store :=
  { rows := [
      { Timestamp := 10, Activity := 0, ID := 1, InitiatorID := "u", TargetID := "g1",
        AccountID := "acc", Meta := [("name", "G1")] },
      { Timestamp := 10, Activity := 1, ID := 2, InitiatorID := "u", TargetID := "g1",
        AccountID := "acc", Meta := [("name", "G1")] },
      { Timestamp := 20, Activity := 0, ID := 3, InitiatorID := "u", TargetID := "g2",
        AccountID := "acc", Meta := [] }],
    lastID := 3, closed := false }

/-- A store with three events of account `acc` with different timestamps and one event of
another account. -/
def sqlite.distinctStore : sqlite.Store :=
  { rows := [
      { Timestamp := 30, Activity := 0, ID := 1, InitiatorID := "u", TargetID := "g1",
        AccountID := "acc", Meta := [("name", "G1")] },
      { Timestamp := 10, Activity := 1, ID := 2, InitiatorID := "u", TargetID := "g1",
        AccountID := "acc", Meta := [("name", "G1")] },
      { Timestamp := 10, Activity := 1, ID := 3, InitiatorID := "v", TargetID := "g7",
        AccountID := "other", Meta := [] },
      { Timestamp := 20, Activity := 0, ID := 4, InitiatorID := "u", TargetID := "g2",
        AccountID := "acc", Meta := [] }],
    lastID := 4, closed := false }

/-! ## Lemmas on maps -/

theorem mapGet_mapSet_self {α : Type} (m : List (String × α)) (key : String) (val : α) :
    mapGet (mapSet m key val) key = some val := by
  induction m with
  | nil => simp [mapSet, mapGet]
  | cons e rest ih =>
    obtain ⟨k0, v0⟩ := e
    by_cases h0 : k0 = key
    · simp [mapSet, mapGet, h0]
    · simp [mapSet, mapGet, h0, ih]

theorem mapGet_mapSet_of_ne {α : Type} (m : List (String × α)) (key : String) (val : α)
    (k : String) (h : k ≠ key) : mapGet (mapSet m key val) k = mapGet m k := by
  have h2 : ¬ key = k := fun e => h e.symm
  induction m with
  | nil => simp [mapSet, mapGet, h2]
  | cons e rest ih =>
    obtain ⟨k0, v0⟩ := e
    by_cases h0 : k0 = key
    · subst h0
      simp [mapSet, mapGet, h2]
    · by_cases h4 : k0 = k
      · subst h4
        simp [mapSet, mapGet, h0]
      · simp [mapSet, mapGet, h0, h4, ih]

theorem mapGet_mapSet {α : Type} (m : List (String × α)) (key : String) (val : α)
    (k : String) :
    mapGet (mapSet m key val) k = if k = key then some val else mapGet m k := by
  by_cases h : k = key
  · subst h; simp [mapGet_mapSet_self]
  · simp [h, mapGet_mapSet_of_ne]

theorem mapGet_mapDelete_self {α : Type} (m : List (String × α)) (key : String) :
    mapGet (mapDelete m key) key = none := by
  induction m with
  | nil => simp [mapDelete, mapGet]
  | cons e rest ih =>
    obtain ⟨k0, v0⟩ := e
    unfold mapDelete at ih ⊢
    by_cases h0 : k0 = key
    · simpa [List.filter_cons, h0] using ih
    · simpa [List.filter_cons, h0, mapGet] using ih

theorem mapGet_mapDelete_of_ne {α : Type} (m : List (String × α)) (key : String) (k : String)
    (h : k ≠ key) : mapGet (mapDelete m key) k = mapGet m k := by
  induction m with
  | nil => simp [mapDelete, mapGet]
  | cons e rest ih =>
    obtain ⟨k0, v0⟩ := e
    unfold mapDelete at ih ⊢
    by_cases h0 : k0 = key
    · subst h0
      have h3 : ¬ k0 = k := fun e => h e.symm
      simpa [List.filter_cons, mapGet, h3] using ih
    · by_cases h4 : k0 = k
      · subst h4
        simp [List.filter_cons, h0, mapGet]
      · simpa [List.filter_cons, h0, mapGet, h4] using ih

theorem mapSet_of_mapGet {α : Type} (m : List (String × α)) (key : String) (val : α)
    (h : mapGet m key = some val) : mapSet m key val = m := by
  induction m with
  | nil => simp [mapGet] at h
  | cons e rest ih =>
    obtain ⟨k0, v0⟩ := e
    by_cases h0 : k0 = key
    · simp only [mapGet, h0, if_true, Option.some.injEq] at h
      simp [mapSet, h0, h]
    · simp only [mapGet, h0, if_false] at h
      simp [mapSet, h0, ih h]

/-! ## Lemmas on the link checks -/

theorem any_beq_iff (l : List String) (groupID : String) :
    l.any (fun g => g == groupID) = true ↔ groupID ∈ l := by
  simp [List.any_eq_true]

theorem find_map_eq_none {α : Type} (l : List α) (p : α → Bool) (f : α → Error) :
    (l.find? p).map f = none ↔ ∀ x ∈ l, p x = false := by
  simp [List.find?_eq_none]

theorem find_map_eq_some {α : Type} (l : List α) (p : α → Bool) (f : α → Error) (e : Error)
    (h : (l.find? p).map f = some e) : ∃ x ∈ l, p x = true ∧ e = f x := by
  cases hx : l.find? p with
  | none => simp [hx] at h
  | some x =>
    simp only [hx, Option.map_some', Option.some.injEq] at h
    exact ⟨x, List.mem_of_find?_eq_some hx, List.find?_some hx, h.symm⟩

theorem checkRouteLinks_eq (routes : List Route) (groupID : String) :
    checkRouteLinks routes groupID =
      (routes.find? (fun r => r.Groups.any (fun g => g == groupID))).map
        (fun r => Error.groupLink "route" r.NetID) := by
  induction routes with
  | nil => rfl
  | cons r rest ih =>
    unfold checkRouteLinks
    by_cases h : r.Groups.any (fun g => g == groupID) = true
    · simp [List.find?_cons, h]
    · simp only [h, if_false, ih, List.find?_cons]
      simp only [Bool.not_eq_true] at h
      simp [h]

theorem checkDNSLinks_eq (nsGroups : List NameServerGroup) (groupID : String) :
    checkDNSLinks nsGroups groupID =
      (nsGroups.find? (fun dns => dns.Groups.any (fun g => g == groupID))).map
        (fun dns => Error.groupLink "name server groups" dns.Name) := by
  induction nsGroups with
  | nil => rfl
  | cons r rest ih =>
    unfold checkDNSLinks
    by_cases h : r.Groups.any (fun g => g == groupID) = true
    · simp [List.find?_cons, h]
    · simp only [h, if_false, ih, List.find?_cons]
      simp only [Bool.not_eq_true] at h
      simp [h]

theorem checkACLLinks_eq (policies : List Policy) (groupID : String) :
    checkACLLinks policies groupID =
      (policies.find? (fun policy => policy.Rules.any (fun rule => ruleLinks rule groupID))).map
        (fun policy => Error.groupLink "policy" policy.Name) := by
  induction policies with
  | nil => rfl
  | cons r rest ih =>
    unfold checkACLLinks
    by_cases h : r.Rules.any (fun rule => ruleLinks rule groupID) = true
    · simp [List.find?_cons, h]
    · simp only [h, if_false, ih, List.find?_cons]
      simp only [Bool.not_eq_true] at h
      simp [h]

theorem checkSetupKeyLinks_eq (setupKeys : List SetupKey) (groupID : String) :
    checkSetupKeyLinks setupKeys groupID =
      (setupKeys.find? (fun setupKey => setupKey.AutoGroups.any (fun g => g == groupID))).map
        (fun setupKey => Error.groupLink "setup key" setupKey.Name) := by
  induction setupKeys with
  | nil => rfl
  | cons r rest ih =>
    unfold checkSetupKeyLinks
    by_cases h : r.AutoGroups.any (fun g => g == groupID) = true
    · simp [List.find?_cons, h]
    · simp only [h, if_false, ih, List.find?_cons]
      simp only [Bool.not_eq_true] at h
      simp [h]

theorem checkUserLinks_eq (users : List User) (groupID : String) :
    checkUserLinks users groupID =
      (users.find? (fun user => user.AutoGroups.any (fun g => g == groupID))).map
        (fun user => Error.groupLink "user" user.Id) := by
  induction users with
  | nil => rfl
  | cons r rest ih =>
    unfold checkUserLinks
    by_cases h : r.AutoGroups.any (fun g => g == groupID) = true
    · simp [List.find?_cons, h]
    · simp only [h, if_false, ih, List.find?_cons]
      simp only [Bool.not_eq_true] at h
      simp [h]

theorem ruleLinks_iff (rule : PolicyRule) (groupID : String) :
    ruleLinks rule groupID = true ↔ groupID ∈ rule.Sources ∨ groupID ∈ rule.Destinations := by
  simp [ruleLinks, any_beq_iff]

theorem rulesAny_iff (rules : List PolicyRule) (groupID : String) :
    rules.any (fun rule => ruleLinks rule groupID) = true ↔
      ∃ rule ∈ rules, groupID ∈ rule.Sources ∨ groupID ∈ rule.Destinations := by
  simp only [List.any_eq_true, ruleLinks_iff]

theorem checkRouteLinks_none (account : Account) (groupID : String) :
    checkRouteLinks account.Routes groupID = none ↔ ¬ refRoute account groupID := by
  rw [checkRouteLinks_eq, find_map_eq_none]
  unfold refRoute
  constructor
  · rintro h ⟨r, hr, hg⟩
    have := h r hr
    rw [(any_beq_iff r.Groups groupID).mpr hg] at this
    exact Bool.noConfusion this
  · intro h r hr
    by_contra hc
    simp only [Bool.not_eq_false] at hc
    exact h ⟨r, hr, (any_beq_iff _ _).mp hc⟩

theorem checkDNSLinks_none (account : Account) (groupID : String) :
    checkDNSLinks account.NameServerGroups groupID = none ↔
      ¬ refNameServerGroup account groupID := by
  rw [checkDNSLinks_eq, find_map_eq_none]
  unfold refNameServerGroup
  constructor
  · rintro h ⟨r, hr, hg⟩
    have := h r hr
    rw [(any_beq_iff r.Groups groupID).mpr hg] at this
    exact Bool.noConfusion this
  · intro h r hr
    by_contra hc
    simp only [Bool.not_eq_false] at hc
    exact h ⟨r, hr, (any_beq_iff _ _).mp hc⟩

theorem checkACLLinks_none (account : Account) (groupID : String) :
    checkACLLinks account.Policies groupID = none ↔ ¬ refPolicy account groupID := by
  rw [checkACLLinks_eq, find_map_eq_none]
  unfold refPolicy
  constructor
  · rintro h ⟨r, hr, hg⟩
    have := h r hr
    rw [(rulesAny_iff r.Rules groupID).mpr hg] at this
    exact Bool.noConfusion this
  · intro h r hr
    by_contra hc
    simp only [Bool.not_eq_false] at hc
    exact h ⟨r, hr, (rulesAny_iff _ _).mp hc⟩

theorem checkSetupKeyLinks_none (account : Account) (groupID : String) :
    checkSetupKeyLinks account.SetupKeys groupID = none ↔ ¬ refSetupKey account groupID := by
  rw [checkSetupKeyLinks_eq, find_map_eq_none]
  unfold refSetupKey
  constructor
  · rintro h ⟨r, hr, hg⟩
    have := h r hr
    rw [(any_beq_iff r.AutoGroups groupID).mpr hg] at this
    exact Bool.noConfusion this
  · intro h r hr
    by_contra hc
    simp only [Bool.not_eq_false] at hc
    exact h ⟨r, hr, (any_beq_iff _ _).mp hc⟩

theorem checkUserLinks_none (account : Account) (groupID : String) :
    checkUserLinks account.Users groupID = none ↔ ¬ refUser account groupID := by
  rw [checkUserLinks_eq, find_map_eq_none]
  unfold refUser
  constructor
  · rintro h ⟨r, hr, hg⟩
    have := h r hr
    rw [(any_beq_iff r.AutoGroups groupID).mpr hg] at this
    exact Bool.noConfusion this
  · intro h r hr
    by_contra hc
    simp only [Bool.not_eq_false] at hc
    exact h ⟨r, hr, (any_beq_iff _ _).mp hc⟩

theorem checkDisabled_none (account : Account) (g : Group) (groupID : String) :
    checkDisabledManagementGroups account.DNSSettings.DisabledManagementGroups g groupID = none ↔
      ¬ refDisabledManagement account groupID := by
  unfold checkDisabledManagementGroups refDisabledManagement
  by_cases h : groupID ∈ account.DNSSettings.DisabledManagementGroups
  · simp [(any_beq_iff _ _).mpr h, h]
  · have h2 : ¬ (account.DNSSettings.DisabledManagementGroups.any
        (fun g => g == groupID) = true) := fun hc => h ((any_beq_iff _ _).mp hc)
    simp [h2, h]

theorem checkRouteLinks_some (account : Account) (groupID : String) (e : Error)
    (h : checkRouteLinks account.Routes groupID = some e) :
    ∃ r ∈ account.Routes, groupID ∈ r.Groups ∧ e = .groupLink "route" r.NetID := by
  rw [checkRouteLinks_eq] at h
  obtain ⟨r, hr, hp, he⟩ := find_map_eq_some _ _ _ _ h
  exact ⟨r, hr, (any_beq_iff _ _).mp hp, he⟩

theorem checkDNSLinks_some (account : Account) (groupID : String) (e : Error)
    (h : checkDNSLinks account.NameServerGroups groupID = some e) :
    ∃ dns ∈ account.NameServerGroups,
      groupID ∈ dns.Groups ∧ e = .groupLink "name server groups" dns.Name := by
  rw [checkDNSLinks_eq] at h
  obtain ⟨r, hr, hp, he⟩ := find_map_eq_some _ _ _ _ h
  exact ⟨r, hr, (any_beq_iff _ _).mp hp, he⟩

theorem checkACLLinks_some (account : Account) (groupID : String) (e : Error)
    (h : checkACLLinks account.Policies groupID = some e) :
    ∃ policy ∈ account.Policies,
      (∃ rule ∈ policy.Rules, groupID ∈ rule.Sources ∨ groupID ∈ rule.Destinations) ∧
      e = .groupLink "policy" policy.Name := by
  rw [checkACLLinks_eq] at h
  obtain ⟨r, hr, hp, he⟩ := find_map_eq_some _ _ _ _ h
  exact ⟨r, hr, (rulesAny_iff _ _).mp hp, he⟩

theorem checkSetupKeyLinks_some (account : Account) (groupID : String) (e : Error)
    (h : checkSetupKeyLinks account.SetupKeys groupID = some e) :
    ∃ setupKey ∈ account.SetupKeys,
      groupID ∈ setupKey.AutoGroups ∧ e = .groupLink "setup key" setupKey.Name := by
  rw [checkSetupKeyLinks_eq] at h
  obtain ⟨r, hr, hp, he⟩ := find_map_eq_some _ _ _ _ h
  exact ⟨r, hr, (any_beq_iff _ _).mp hp, he⟩

theorem checkUserLinks_some (account : Account) (groupID : String) (e : Error)
    (h : checkUserLinks account.Users groupID = some e) :
    ∃ user ∈ account.Users, groupID ∈ user.AutoGroups ∧ e = .groupLink "user" user.Id := by
  rw [checkUserLinks_eq] at h
  obtain ⟨r, hr, hp, he⟩ := find_map_eq_some _ _ _ _ h
  exact ⟨r, hr, (any_beq_iff _ _).mp hp, he⟩

theorem checkDisabled_some (account : Account) (g : Group) (groupID : String) (e : Error)
    (h : checkDisabledManagementGroups account.DNSSettings.DisabledManagementGroups g groupID
      = some e) :
    groupID ∈ account.DNSSettings.DisabledManagementGroups ∧
      e = .groupLink "disabled DNS management groups" g.Name := by
  unfold checkDisabledManagementGroups at h
  by_cases hc : account.DNSSettings.DisabledManagementGroups.any (fun x => x == groupID) = true
  · rw [if_pos hc] at h
    exact ⟨(any_beq_iff _ _).mp hc, (Option.some.inj h).symm⟩
  · rw [if_neg hc] at h
    exact Option.noConfusion h

/-- The link check finds nothing exactly when the group is not referenced. -/
theorem checkLinks_none (account : Account) (g : Group) (groupID : String) :
    checkLinks account g groupID = none ↔ ¬ Referenced account groupID := by
  unfold checkLinks Referenced
  cases h1 : checkRouteLinks account.Routes groupID with
  | some e =>
    have := checkRouteLinks_some account groupID e h1
    have hr : refRoute account groupID := by
      obtain ⟨r, hr, hg, _⟩ := this
      exact ⟨r, hr, hg⟩
    simp [hr]
  | none =>
    have n1 := (checkRouteLinks_none account groupID).mp h1
    cases h2 : checkDNSLinks account.NameServerGroups groupID with
    | some e =>
      obtain ⟨r, hr, hg, _⟩ := checkDNSLinks_some account groupID e h2
      have : refNameServerGroup account groupID := ⟨r, hr, hg⟩
      simp [this]
    | none =>
      have n2 := (checkDNSLinks_none account groupID).mp h2
      cases h3 : checkACLLinks account.Policies groupID with
      | some e =>
        obtain ⟨r, hr, hg, _⟩ := checkACLLinks_some account groupID e h3
        have : refPolicy account groupID := ⟨r, hr, hg⟩
        simp [this]
      | none =>
        have n3 := (checkACLLinks_none account groupID).mp h3
        cases h4 : checkSetupKeyLinks account.SetupKeys groupID with
        | some e =>
          obtain ⟨r, hr, hg, _⟩ := checkSetupKeyLinks_some account groupID e h4
          have : refSetupKey account groupID := ⟨r, hr, hg⟩
          simp [this]
        | none =>
          have n4 := (checkSetupKeyLinks_none account groupID).mp h4
          cases h5 : checkUserLinks account.Users groupID with
          | some e =>
            obtain ⟨r, hr, hg, _⟩ := checkUserLinks_some account groupID e h5
            have : refUser account groupID := ⟨r, hr, hg⟩
            simp [this]
          | none =>
            have n5 := (checkUserLinks_none account groupID).mp h5
            simp only [n1, n2, n3, n4, n5, false_or]
            exact checkDisabled_none account g groupID

/-- A conflict found by the link check carries the earliest referencing kind and names a
resource that references the group. -/
theorem checkLinks_some (account : Account) (g : Group) (groupID : String) (e : Error)
    (h : checkLinks account g groupID = some e) :
    ∃ name, e = .groupLink (expectedResource account groupID) name ∧
      NamesLink account g groupID (expectedResource account groupID) name := by
  unfold checkLinks at h
  unfold expectedResource NamesLink
  cases h1 : checkRouteLinks account.Routes groupID with
  | some e1 =>
    rw [h1] at h
    obtain ⟨r, hr, hg, he⟩ := checkRouteLinks_some account groupID e1 h1
    have hk : refRoute account groupID := ⟨r, hr, hg⟩
    rw [if_pos hk]
    cases Option.some.inj h
    exact ⟨r.NetID, he, Or.inl ⟨rfl, r, hr, hg, rfl⟩⟩
  | none =>
    rw [h1] at h
    rw [if_neg ((checkRouteLinks_none account groupID).mp h1)]
    cases h2 : checkDNSLinks account.NameServerGroups groupID with
    | some e2 =>
      rw [h2] at h
      obtain ⟨r, hr, hg, he⟩ := checkDNSLinks_some account groupID e2 h2
      have hk : refNameServerGroup account groupID := ⟨r, hr, hg⟩
      rw [if_pos hk]
      cases Option.some.inj h
      exact ⟨r.Name, he, Or.inr (Or.inl ⟨rfl, r, hr, hg, rfl⟩)⟩
    | none =>
      rw [h2] at h
      rw [if_neg ((checkDNSLinks_none account groupID).mp h2)]
      cases h3 : checkACLLinks account.Policies groupID with
      | some e3 =>
        rw [h3] at h
        obtain ⟨r, hr, hg, he⟩ := checkACLLinks_some account groupID e3 h3
        have hk : refPolicy account groupID := ⟨r, hr, hg⟩
        rw [if_pos hk]
        cases Option.some.inj h
        exact ⟨r.Name, he, Or.inr (Or.inr (Or.inl ⟨rfl, r, hr, hg, rfl⟩))⟩
      | none =>
        rw [h3] at h
        rw [if_neg ((checkACLLinks_none account groupID).mp h3)]
        cases h4 : checkSetupKeyLinks account.SetupKeys groupID with
        | some e4 =>
          rw [h4] at h
          obtain ⟨r, hr, hg, he⟩ := checkSetupKeyLinks_some account groupID e4 h4
          have hk : refSetupKey account groupID := ⟨r, hr, hg⟩
          rw [if_pos hk]
          cases Option.some.inj h
          exact ⟨r.Name, he, Or.inr (Or.inr (Or.inr (Or.inl ⟨rfl, r, hr, hg, rfl⟩)))⟩
        | none =>
          rw [h4] at h
          rw [if_neg ((checkSetupKeyLinks_none account groupID).mp h4)]
          cases h5 : checkUserLinks account.Users groupID with
          | some e5 =>
            rw [h5] at h
            obtain ⟨r, hr, hg, he⟩ := checkUserLinks_some account groupID e5 h5
            have hk : refUser account groupID := ⟨r, hr, hg⟩
            rw [if_pos hk]
            cases Option.some.inj h
            exact ⟨r.Id, he, Or.inr (Or.inr (Or.inr (Or.inr (Or.inl ⟨rfl, r, hr, hg, rfl⟩))))⟩
          | none =>
            rw [h5] at h
            rw [if_neg ((checkUserLinks_none account groupID).mp h5)]
            obtain ⟨hg, he⟩ := checkDisabled_some account g groupID e h
            exact ⟨g.Name, he, Or.inr (Or.inr (Or.inr (Or.inr (Or.inr ⟨rfl, hg, rfl⟩))))⟩

/-! ## DeleteGroup -/

theorem DeleteGroup_absent (env : Env) (w : World) (accountId userId groupID : String)
    (account : Account) (hacc : GetAccount w accountId = .ok account)
    (hg : mapGet account.Groups groupID = none) :
    DeleteGroup env w accountId userId groupID = ⟨.ok (), some account, w⟩ := by
  unfold DeleteGroup
  simp only [hacc, hg]

theorem DeleteGroup_linked (env : Env) (w : World) (accountId userId groupID : String)
    (account : Account) (g : Group) (e : Error) (hacc : GetAccount w accountId = .ok account)
    (hg : mapGet account.Groups groupID = some g) (hl : checkLinks account g groupID = some e) :
    DeleteGroup env w accountId userId groupID = ⟨.error e, some account, w⟩ := by
  unfold DeleteGroup
  simp only [hacc, hg, hl]

/-- C1: when the group exists and is referenced by a route, a name-server group, a policy rule,
a setup key, a user or the DNS management exclusions, `DeleteGroup` returns a `GroupLinkError`
whose resource and name are those of a resource that references the group, and nothing changes:
the world (the persisted accounts and the history of `SaveAccount`, `updateAccountPeers` and
audit events) is the one before the call, the stored account still has the group, and the
in-memory account is the loaded one, with its generation counter. -/
theorem deleteGroup_referenced_fails (env : Env) (w : World) (accountId userId groupID : String)
    (account : Account) (g : Group)
    (hacc : GetAccount w accountId = .ok account)
    (hg : mapGet account.Groups groupID = some g)
    (href : Referenced account groupID) :
    ∃ resource name,
      (DeleteGroup env w accountId userId groupID).result = .error (.groupLink resource name) ∧
      NamesLink account g groupID resource name ∧
      (DeleteGroup env w accountId userId groupID).world = w ∧
      (DeleteGroup env w accountId userId groupID).account = some account ∧
      GetAccount (DeleteGroup env w accountId userId groupID).world accountId = .ok account ∧
      (DeleteGroup env w accountId userId groupID).world.saveCalls = w.saveCalls ∧
      (DeleteGroup env w accountId userId groupID).world.updateCalls = w.updateCalls ∧
      (DeleteGroup env w accountId userId groupID).world.events = w.events := by
  cases hl : checkLinks account g groupID with
  | none => exact absurd href ((checkLinks_none account g groupID).mp hl)
  | some e =>
    obtain ⟨name, he, hn⟩ := checkLinks_some account g groupID e hl
    rw [DeleteGroup_linked env w accountId userId groupID account g e hacc hg hl]
    exact ⟨_, name, by rw [he], hn, rfl, rfl, hacc, rfl, rfl, rfl⟩

theorem deleteGroup_referenced_fails_witness :
    GetAccount linkedWorld "acc" = .ok linkedAccount ∧
    Referenced linkedAccount "g1" ∧
    ∃ resource name,
      (DeleteGroup envOk linkedWorld "acc" "u" "g1").result
        = .error (.groupLink resource name) ∧
      NamesLink linkedAccount
        { ID := "g1", Name := "G1", Issued := "api", Peers := ["p1", "p2"] } "g1" resource name ∧
      (DeleteGroup envOk linkedWorld "acc" "u" "g1").world = linkedWorld ∧
      (DeleteGroup envOk linkedWorld "acc" "u" "g1").account = some linkedAccount ∧
      GetAccount (DeleteGroup envOk linkedWorld "acc" "u" "g1").world "acc" = .ok linkedAccount ∧
      (DeleteGroup envOk linkedWorld "acc" "u" "g1").world.saveCalls = linkedWorld.saveCalls ∧
      (DeleteGroup envOk linkedWorld "acc" "u" "g1").world.updateCalls
        = linkedWorld.updateCalls ∧
      (DeleteGroup envOk linkedWorld "acc" "u" "g1").world.events = linkedWorld.events :=
  ⟨rfl, by decide,
    deleteGroup_referenced_fails envOk linkedWorld "acc" "u" "g1" linkedAccount
      { ID := "g1", Name := "G1", Issued := "api", Peers := ["p1", "p2"] } rfl rfl (by decide)⟩

/-- The three ways `DeleteGroup` ends for an existing group without links. -/
theorem DeleteGroup_unlinked (env : Env) (w : World) (accountId userId groupID : String)
    (account : Account) (g : Group) (hacc : GetAccount w accountId = .ok account)
    (hg : mapGet account.Groups groupID = some g) (hl : checkLinks account g groupID = none) :
    DeleteGroup env w accountId userId groupID =
      match env.saveAccountErr w.trace (deletedAccount account groupID) with
      | some e =>
        ⟨.error e, some (deletedAccount account groupID),
          { accounts := w.accounts,
            trace := w.trace ++ [.saveAccount (deletedAccount account groupID) (some e)] }⟩
      | none =>
        match env.updateAccountPeersErr
            (w.trace ++ [.saveAccount (deletedAccount account groupID) none] ++
              [.storeEvent (groupDeletedEvent userId groupID accountId g)])
            (deletedAccount account groupID) with
        | some e =>
          ⟨.error e, some (deletedAccount account groupID),
            { accounts := mapSet w.accounts account.Id (deletedAccount account groupID),
              trace := w.trace ++ [.saveAccount (deletedAccount account groupID) none] ++
                [.storeEvent (groupDeletedEvent userId groupID accountId g)] ++
                [.updateAccountPeers (deletedAccount account groupID) (some e)] }⟩
        | none =>
          ⟨.ok (), some (deletedAccount account groupID),
            { accounts := mapSet w.accounts account.Id (deletedAccount account groupID),
              trace := w.trace ++ [.saveAccount (deletedAccount account groupID) none] ++
                [.storeEvent (groupDeletedEvent userId groupID accountId g)] ++
                [.updateAccountPeers (deletedAccount account groupID) none] }⟩ := by
  unfold DeleteGroup
  simp only [hacc, hg, hl, SaveAccount, updateAccountPeers, storeEvent]
  cases hs : env.saveAccountErr w.trace (deletedAccount account groupID) with
  | some e =>
    simp only [deletedAccount] at hs
    simp only [hs]
    rfl
  | none =>
    simp only [deletedAccount] at hs
    simp only [hs]
    cases hu : env.updateAccountPeersErr
        (w.trace ++ [.saveAccount (deletedAccount account groupID) none] ++
          [.storeEvent (groupDeletedEvent userId groupID accountId g)])
        (deletedAccount account groupID) with
    | some e =>
      simp only [deletedAccount, groupDeletedEvent, Group.EventMeta] at hu
      simp only [Group.EventMeta, hu]
      rfl
    | none =>
      simp only [deletedAccount, groupDeletedEvent, Group.EventMeta] at hu
      simp only [Group.EventMeta, hu]
      rfl

/-- C2: for an existing group that is referenced, the resource of the `GroupLinkError` is the
earliest referencing kind in the order route, name server groups, policy, setup key, user,
disabled DNS management groups; so a group referenced by a route (and, say, also by a user)
yields the resource route, and a group referenced only by the DNS management exclusions yields
the error with resource disabled DNS management groups and the name of the group itself. -/
theorem deleteGroup_conflict_order (env : Env) (w : World) (accountId userId groupID : String)
    (account : Account) (g : Group)
    (hacc : GetAccount w accountId = .ok account)
    (hg : mapGet account.Groups groupID = some g) :
    (Referenced account groupID →
      ∃ name, (DeleteGroup env w accountId userId groupID).result
        = .error (.groupLink (expectedResource account groupID) name)) ∧
    (refUser account groupID → refRoute account groupID →
      ∃ name, (DeleteGroup env w accountId userId groupID).result
        = .error (.groupLink "route" name)) ∧
    (¬ refRoute account groupID → ¬ refNameServerGroup account groupID →
      ¬ refPolicy account groupID → ¬ refSetupKey account groupID → ¬ refUser account groupID →
      refDisabledManagement account groupID →
      (DeleteGroup env w accountId userId groupID).result
        = .error (.groupLink "disabled DNS management groups" g.Name)) := by
  have main : Referenced account groupID →
      ∃ name, (DeleteGroup env w accountId userId groupID).result
        = .error (.groupLink (expectedResource account groupID) name) ∧
        NamesLink account g groupID (expectedResource account groupID) name := by
    intro href
    cases hl : checkLinks account g groupID with
    | none => exact absurd href ((checkLinks_none account g groupID).mp hl)
    | some e =>
      obtain ⟨name, he, hn⟩ := checkLinks_some account g groupID e hl
      rw [DeleteGroup_linked env w accountId userId groupID account g e hacc hg hl]
      exact ⟨name, by rw [he], hn⟩
  refine ⟨fun href => ?_, fun _ hr => ?_, fun n1 n2 n3 n4 n5 hd => ?_⟩
  · obtain ⟨name, h, _⟩ := main href
    exact ⟨name, h⟩
  · obtain ⟨name, h, _⟩ := main (Or.inl hr)
    have hx : expectedResource account groupID = "route" := by
      unfold expectedResource
      rw [if_pos hr]
    rw [hx] at h
    exact ⟨name, h⟩
  · obtain ⟨name, h, hn⟩ := main (Or.inr (Or.inr (Or.inr (Or.inr (Or.inr hd)))))
    have hx : expectedResource account groupID = "disabled DNS management groups" := by
      unfold expectedResource
      rw [if_neg n1, if_neg n2, if_neg n3, if_neg n4, if_neg n5]
    rw [hx] at h hn
    have hname : name = g.Name := by
      unfold NamesLink at hn
      rcases hn with ⟨hc, _⟩ | ⟨hc, _⟩ | ⟨hc, _⟩ | ⟨hc, _⟩ | ⟨hc, _⟩ | ⟨_, _, hc⟩
      · exact absurd hc (by decide)
      · exact absurd hc (by decide)
      · exact absurd hc (by decide)
      · exact absurd hc (by decide)
      · exact absurd hc (by decide)
      · exact hc
    rw [hname] at h
    exact h

theorem deleteGroup_conflict_order_witness :
    GetAccount linkedWorld "acc" = .ok linkedAccount ∧
    refUser linkedAccount "g1" ∧ refRoute linkedAccount "g1" ∧
    ∃ name, (DeleteGroup envOk linkedWorld "acc" "u" "g1").result
      = .error (.groupLink "route" name) :=
  ⟨rfl, by decide, by decide,
    (deleteGroup_conflict_order envOk linkedWorld "acc" "u" "g1" linkedAccount
      { ID := "g1", Name := "G1", Issued := "api", Peers := ["p1", "p2"] } rfl rfl).2.1
      (by decide) (by decide)⟩

/-- C3: for an existing account and a group ID that is not a key of its groups, `DeleteGroup`
returns success and changes nothing (the world, hence the stored groups and generation counter,
the history of `SaveAccount` and `updateAccountPeers` calls and the audit events, and the
in-memory account are as before); and when the store keeps the account under its own `Id`, a
second `DeleteGroup` after a successful one returns success and leaves the world as the first
call left it. -/
theorem deleteGroup_absent_noop (env env2 : Env) (w : World)
    (accountId userId userId2 groupID : String) (account : Account)
    (hacc : GetAccount w accountId = .ok account) :
    (mapGet account.Groups groupID = none →
      (DeleteGroup env w accountId userId groupID).result = .ok () ∧
      (DeleteGroup env w accountId userId groupID).world = w ∧
      (DeleteGroup env w accountId userId groupID).account = some account ∧
      GetAccount (DeleteGroup env w accountId userId groupID).world accountId = .ok account ∧
      (DeleteGroup env w accountId userId groupID).world.saveCalls = w.saveCalls ∧
      (DeleteGroup env w accountId userId groupID).world.updateCalls = w.updateCalls ∧
      (DeleteGroup env w accountId userId groupID).world.events = w.events) ∧
    (account.Id = accountId → (DeleteGroup env w accountId userId groupID).result = .ok () →
      (DeleteGroup env2 (DeleteGroup env w accountId userId groupID).world
        accountId userId2 groupID).result = .ok () ∧
      (DeleteGroup env2 (DeleteGroup env w accountId userId groupID).world
        accountId userId2 groupID).world = (DeleteGroup env w accountId userId groupID).world) := by
  constructor
  · intro hg
    rw [DeleteGroup_absent env w accountId userId groupID account hacc hg]
    exact ⟨rfl, rfl, rfl, hacc, rfl, rfl, rfl⟩
  · intro hid hok
    cases hg : mapGet account.Groups groupID with
    | none =>
      rw [DeleteGroup_absent env w accountId userId groupID account hacc hg]
      rw [DeleteGroup_absent env2 w accountId userId2 groupID account hacc hg]
      exact ⟨rfl, rfl⟩
    | some g =>
      cases hl : checkLinks account g groupID with
      | some e =>
        rw [DeleteGroup_linked env w accountId userId groupID account g e hacc hg hl] at hok
        exact Result.noConfusion hok
      | none =>
        have hshape := DeleteGroup_unlinked env w accountId userId groupID account g hacc hg hl
        cases hs : env.saveAccountErr w.trace (deletedAccount account groupID) with
        | some e =>
          rw [hs] at hshape
          rw [hshape] at hok
          exact Result.noConfusion hok
        | none =>
          rw [hs] at hshape
          cases hu : env.updateAccountPeersErr
              (w.trace ++ [.saveAccount (deletedAccount account groupID) none] ++
                [.storeEvent (groupDeletedEvent userId groupID accountId g)])
              (deletedAccount account groupID) with
          | some e =>
            rw [hu] at hshape
            rw [hshape] at hok
            exact Result.noConfusion hok
          | none =>
            rw [hu] at hshape
            rw [hshape]
            have hacc2 : GetAccount
                { accounts := mapSet w.accounts account.Id (deletedAccount account groupID),
                  trace := w.trace ++ [.saveAccount (deletedAccount account groupID) none] ++
                    [.storeEvent (groupDeletedEvent userId groupID accountId g)] ++
                    [.updateAccountPeers (deletedAccount account groupID) none] }
                accountId = .ok (deletedAccount account groupID) := by
              unfold GetAccount
              simp only [hid, mapGet_mapSet_self]
            have hg2 : mapGet (deletedAccount account groupID).Groups groupID = none := by
              simp only [deletedAccount, Account.IncSerial, mapGet_mapDelete_self]
            rw [DeleteGroup_absent env2 _ accountId userId2 groupID _ hacc2 hg2]
            exact ⟨rfl, rfl⟩

theorem deleteGroup_absent_noop_witness :
    (GetAccount sampleWorld "acc" = .ok sampleAccount ∧
      mapGet sampleAccount.Groups "g9" = none ∧
      (DeleteGroup envOk sampleWorld "acc" "u" "g9").result = .ok () ∧
      (DeleteGroup envOk sampleWorld "acc" "u" "g9").world = sampleWorld) ∧
    (sampleAccount.Id = "acc" ∧ (DeleteGroup envOk sampleWorld "acc" "u" "g1").result = .ok () ∧
      (DeleteGroup envOk (DeleteGroup envOk sampleWorld "acc" "u" "g1").world
        "acc" "u" "g1").result = .ok () ∧
      (DeleteGroup envOk (DeleteGroup envOk sampleWorld "acc" "u" "g1").world
        "acc" "u" "g1").world = (DeleteGroup envOk sampleWorld "acc" "u" "g1").world) :=
  ⟨⟨rfl, rfl,
      ((deleteGroup_absent_noop envOk envOk sampleWorld "acc" "u" "u" "g9" sampleAccount
        rfl).1 rfl).1,
      ((deleteGroup_absent_noop envOk envOk sampleWorld "acc" "u" "u" "g9" sampleAccount
        rfl).1 rfl).2.1⟩,
    ⟨rfl, rfl,
      (deleteGroup_absent_noop envOk envOk sampleWorld "acc" "u" "u" "g1" sampleAccount
        rfl).2 rfl rfl⟩⟩

theorem events_append (accounts : List (String × Account)) (t l : List Effect) :
    World.events { accounts := accounts, trace := t ++ l }
      = World.events { accounts := [], trace := t } ++
        World.events { accounts := [], trace := l } := by
  simp [World.events, List.filterMap_append]

theorem events_eq (w : World) : w.events = World.events { accounts := [], trace := w.trace } :=
  rfl

/-- C10: for a group that exists and is referenced by nothing, when the `SaveAccount` and the
`updateAccountPeers` of the call succeed, `DeleteGroup` returns success; the account it worked
on and persisted no longer has the group ID as a key and maps every other key as before; and
the audit events are those before the call followed by exactly one `GroupDeleted` event with
the group ID as target and the meta `name` = the name of the deleted group. -/
theorem deleteGroup_unreferenced_succeeds (env : Env) (w : World)
    (accountId userId groupID : String) (account : Account) (g : Group)
    (hacc : GetAccount w accountId = .ok account)
    (hg : mapGet account.Groups groupID = some g)
    (hnr : ¬ Referenced account groupID)
    (hsave : env.saveAccountErr w.trace (deletedAccount account groupID) = none)
    (hupd : env.updateAccountPeersErr
      (w.trace ++ [.saveAccount (deletedAccount account groupID) none] ++
        [.storeEvent (groupDeletedEvent userId groupID accountId g)])
      (deletedAccount account groupID) = none) :
    (DeleteGroup env w accountId userId groupID).result = .ok () ∧
    (∃ saved : Account,
      (DeleteGroup env w accountId userId groupID).account = some saved ∧
      mapGet (DeleteGroup env w accountId userId groupID).world.accounts account.Id
        = some saved ∧
      mapGet saved.Groups groupID = none ∧
      ∀ k, k ≠ groupID → mapGet saved.Groups k = mapGet account.Groups k) ∧
    (DeleteGroup env w accountId userId groupID).world.events = w.events ++
      [{ InitiatorID := userId, TargetID := groupID, AccountID := accountId,
         Activity := .GroupDeleted, Meta := [("name", g.Name)] }] := by
  have hl := (checkLinks_none account g groupID).mpr hnr
  have hshape := DeleteGroup_unlinked env w accountId userId groupID account g hacc hg hl
  rw [hsave] at hshape
  simp only [] at hshape
  rw [hupd] at hshape
  rw [hshape]
  refine ⟨rfl, ⟨deletedAccount account groupID, rfl, ?_, ?_, ?_⟩, ?_⟩
  · simp only [mapGet_mapSet_self]
  · simp only [deletedAccount, Account.IncSerial, mapGet_mapDelete_self]
  · intro k hk
    simp only [deletedAccount, Account.IncSerial, mapGet_mapDelete_of_ne _ _ _ hk]
  · simp only [List.append_assoc]
    rw [events_append, ← events_eq]
    rfl

theorem deleteGroup_unreferenced_succeeds_witness :
    GetAccount sampleWorld "acc" = .ok sampleAccount ∧
    ¬ Referenced sampleAccount "g1" ∧
    (DeleteGroup envOk sampleWorld "acc" "u" "g1").result = .ok () ∧
    (DeleteGroup envOk sampleWorld "acc" "u" "g1").world.events = sampleWorld.events ++
      [{ InitiatorID := "u", TargetID := "g1", AccountID := "acc",
         Activity := .GroupDeleted, Meta := [("name", "G1")] }] :=
  ⟨rfl, by decide,
    (deleteGroup_unreferenced_succeeds envOk sampleWorld "acc" "u" "g1" sampleAccount
      { ID := "g1", Name := "G1", Issued := "api", Peers := ["p1", "p2"] }
      rfl rfl (by decide) rfl rfl).1,
    (deleteGroup_unreferenced_succeeds envOk sampleWorld "acc" "u" "g1" sampleAccount
      { ID := "g1", Name := "G1", Issued := "api", Peers := ["p1", "p2"] }
      rfl rfl (by decide) rfl rfl).2.2⟩

/-- C9: evaluation of `DeleteGroup` on an existing, unreferenced group when
`updateAccountPeers` fails: the call returns the propagation error, and the `GroupDeleted`
audit event has been stored, because `storeEvent` is called before `updateAccountPeers`. -/
theorem deleteGroup_event_before_propagation :
    (DeleteGroup envUpdateFails sampleWorld "acc" "u" "g1").result
      = .error (.external "update failed") ∧
    (DeleteGroup envUpdateFails sampleWorld "acc" "u" "g1").world.events =
      [{ InitiatorID := "u", TargetID := "g1", AccountID := "acc",
         Activity := .GroupDeleted, Meta := [("name", "G1")] }] ∧
    (DeleteGroup envUpdateFails sampleWorld "acc" "u" "g1").world.trace =
      [.saveAccount (deletedAccount sampleAccount "g1") none,
       .storeEvent (groupDeletedEvent "u" "g1" "acc"
         { ID := "g1", Name := "G1", Issued := "api", Peers := ["p1", "p2"] }),
       .updateAccountPeers (deletedAccount sampleAccount "g1")
         (some (.external "update failed"))] := by
  refine ⟨rfl, rfl, rfl⟩

/-! ## SaveGroup -/

theorem differenceSet_fold (b : List String) (m : List (String × Unit)) (x : String) :
    (mapGet (b.foldl (fun mb y => mapSet mb y ()) m) x).isSome = true ↔
      (mapGet m x).isSome = true ∨ x ∈ b := by
  induction b generalizing m with
  | nil => simp
  | cons y rest ih =>
    rw [List.foldl_cons, ih, mapGet_mapSet]
    by_cases h : x = y
    · simp [h]
    · simp [h]

theorem differenceSet_mem (b : List String) (x : String) :
    (mapGet (differenceSet b) x).isSome = true ↔ x ∈ b := by
  unfold differenceSet
  rw [differenceSet_fold]
  simp [mapGet]

theorem difference_fold (mb : List (String × Unit)) (a acc : List String) :
    a.foldl (fun diff x => if (mapGet mb x).isSome then diff else diff ++ [x]) acc =
      acc ++ a.filter (fun x => !(mapGet mb x).isSome) := by
  induction a generalizing acc with
  | nil => simp
  | cons x rest ih =>
    rw [List.foldl_cons, ih]
    cases h : mapGet mb x with
    | some u => simp [h, List.filter_cons]
    | none => simp [h, List.filter_cons]

/-- The function `difference` keeps the entries of `a` that do not occur in `b`, in the order
of `a`. -/
theorem difference_eq_filter (a b : List String) :
    difference a b = a.filter (fun x => decide (x ∉ b)) := by
  unfold difference
  simp only [difference_fold, List.nil_append]
  apply List.filter_congr
  intro x _
  by_cases h : x ∈ b
  · simp [h, (differenceSet_mem b x).mpr h]
  · have h2 : ¬ ((mapGet (differenceSet b) x).isSome = true) :=
      fun hc => h ((differenceSet_mem b x).mp hc)
    simp [h, h2]

theorem storePeerEvents_eq (env : Env) (account : Account) (userID accountID : String)
    (newGroup : Group) (activityID : Activity) (ids : List String) (w : World) :
    storePeerEvents env account userID accountID newGroup activityID ids w =
      { accounts := w.accounts,
        trace := w.trace ++
          (peerEvents env account userID accountID newGroup activityID ids).map
            Effect.storeEvent } := by
  induction ids generalizing w with
  | nil => simp [storePeerEvents, peerEvents]
  | cons p rest ih =>
    unfold storePeerEvents
    cases hp : mapGet account.Peers p with
    | none =>
      simp only [ih]
      simp [peerEvents, List.filterMap_cons, hp]
    | some peer =>
      simp only [ih]
      simp [peerEvents, List.filterMap_cons, hp, storeEvent, peerEvent, peerEventMeta]

/-- The three ways `SaveGroup` ends once the account is loaded. -/
theorem SaveGroup_eq (env : Env) (w : World) (accountID userID : String) (newGroup : Group)
    (account : Account) (hacc : GetAccount w accountID = .ok account) :
    SaveGroup env w accountID userID newGroup =
      match env.saveAccountErr w.trace (savedAccount account newGroup) with
      | some e =>
        ⟨.error e, some (savedAccount account newGroup),
          { accounts := w.accounts,
            trace := w.trace ++ [.saveAccount (savedAccount account newGroup) (some e)] }⟩
      | none =>
        match env.updateAccountPeersErr
            (w.trace ++ [.saveAccount (savedAccount account newGroup) none])
            (savedAccount account newGroup) with
        | some e =>
          ⟨.error e, some (savedAccount account newGroup),
            { accounts := mapSet w.accounts account.Id (savedAccount account newGroup),
              trace := w.trace ++ [.saveAccount (savedAccount account newGroup) none] ++
                [.updateAccountPeers (savedAccount account newGroup) (some e)] }⟩
        | none =>
          ⟨.ok (), some (savedAccount account newGroup),
            { accounts := mapSet w.accounts account.Id (savedAccount account newGroup),
              trace := w.trace ++ [.saveAccount (savedAccount account newGroup) none] ++
                [.updateAccountPeers (savedAccount account newGroup) none] ++
                (saveGroupEvents env account userID accountID newGroup).map
                  Effect.storeEvent }⟩ := by
  unfold SaveGroup
  simp only [hacc, SaveAccount, updateAccountPeers]
  cases hs : env.saveAccountErr w.trace (savedAccount account newGroup) with
  | some e =>
    simp only [savedAccount] at hs
    simp only [hs]
    rfl
  | none =>
    simp only [savedAccount] at hs
    simp only [hs]
    cases hu : env.updateAccountPeersErr
        (w.trace ++ [.saveAccount (savedAccount account newGroup) none])
        (savedAccount account newGroup) with
    | some e =>
      simp only [savedAccount] at hu
      simp only [hu]
      rfl
    | none =>
      simp only [savedAccount] at hu
      simp only [hu]
      unfold saveGroupEvents
      cases hold : mapGet account.Groups newGroup.ID with
      | none =>
        simp only [storePeerEvents_eq, storeEvent, Group.EventMeta]
        simp [groupCreatedEvent, savedAccount, peerEvents, Account.IncSerial]
      | some oldGroup =>
        simp only [storePeerEvents_eq]
        simp [savedAccount, peerEvents, Account.IncSerial]

theorem events_of_store (accounts : List (String × Account)) (evs : List Event) :
    World.events { accounts := accounts, trace := evs.map Effect.storeEvent } = evs := by
  induction evs with
  | nil => rfl
  | cons e rest ih =>
    simp only [World.events, List.map_cons, List.filterMap_cons] at ih ⊢
    rw [ih]

/-- What a successful `SaveGroup` leaves behind. -/
theorem SaveGroup_ok (env : Env) (w : World) (accountID userID : String) (newGroup : Group)
    (account : Account) (hacc : GetAccount w accountID = .ok account)
    (hok : (SaveGroup env w accountID userID newGroup).result = .ok ()) :
    SaveGroup env w accountID userID newGroup =
      ⟨.ok (), some (savedAccount account newGroup),
        { accounts := mapSet w.accounts account.Id (savedAccount account newGroup),
          trace := w.trace ++ [.saveAccount (savedAccount account newGroup) none] ++
            [.updateAccountPeers (savedAccount account newGroup) none] ++
            (saveGroupEvents env account userID accountID newGroup).map Effect.storeEvent }⟩ := by
  have hshape := SaveGroup_eq env w accountID userID newGroup account hacc
  cases hs : env.saveAccountErr w.trace (savedAccount account newGroup) with
  | some e =>
    rw [hs] at hshape
    rw [hshape] at hok
    exact Result.noConfusion hok
  | none =>
    rw [hs] at hshape
    cases hu : env.updateAccountPeersErr
        (w.trace ++ [.saveAccount (savedAccount account newGroup) none])
        (savedAccount account newGroup) with
    | some e =>
      rw [hu] at hshape
      rw [hshape] at hok
      exact Result.noConfusion hok
    | none =>
      rw [hu] at hshape
      exact hshape

theorem SaveGroup_ok_events (env : Env) (w : World) (accountID userID : String)
    (newGroup : Group) (account : Account) (hacc : GetAccount w accountID = .ok account)
    (hok : (SaveGroup env w accountID userID newGroup).result = .ok ()) :
    (SaveGroup env w accountID userID newGroup).world.events =
      w.events ++ saveGroupEvents env account userID accountID newGroup := by
  rw [SaveGroup_ok env w accountID userID newGroup account hacc hok]
  simp only [List.append_assoc]
  rw [events_append, ← events_eq, events_append, events_append, events_of_store]
  simp [World.events]

theorem peerEvents_eq_map (env : Env) (account : Account) (userID accountID : String)
    (newGroup : Group) (activityID : Activity) (peerOf : String → Peer) (ids : List String)
    (hex : ∀ p ∈ ids, mapGet account.Peers p = some (peerOf p)) :
    peerEvents env account userID accountID newGroup activityID ids =
      ids.map (fun p => peerEvent env userID accountID newGroup activityID (peerOf p)) := by
  induction ids with
  | nil => rfl
  | cons p rest ih =>
    have hp := hex p (List.mem_cons_self p rest)
    have hrest := ih (fun q hq => hex q (List.mem_cons_of_mem p hq))
    unfold peerEvents at hrest ⊢
    simp only [List.filterMap_cons, hp, Option.map_some', List.map_cons, hrest]

theorem count_filter_not_mem (a b : List String) (p : String) :
    (a.filter (fun x => decide (x ∉ b))).count p = if p ∈ b then 0 else a.count p := by
  by_cases h : p ∈ b
  · rw [if_pos h, List.count_eq_zero]
    intro hm
    have := (List.mem_filter.mp hm).2
    simp [h] at this
  · rw [if_neg h]
    exact List.count_filter (by simp [h])

/-- C4 (as corrected): for a stored group with peers `oldGroup.Peers`, a new group with peers
`newGroup.Peers`, all of these IDs being keys of the peer collection (`peerOf` gives the peer
of an ID), a successful `SaveGroup` stores, after the earlier events, one `GroupAddedToPeer`
event for each occurrence in `newGroup.Peers` of an ID that is not in `oldGroup.Peers`, in
that order, followed by one `GroupRemovedFromPeer` event for each occurrence in
`oldGroup.Peers` of an ID that is not in `newGroup.Peers`. An ID in both gets no event, and an
ID gets as many events as it has occurrences in the sequence it is taken from: exactly one
when that sequence has no duplicates. -/
theorem saveGroup_diff_events (env : Env) (w : World) (accountID userID : String)
    (newGroup : Group) (account : Account) (oldGroup : Group) (peerOf : String → Peer)
    (hacc : GetAccount w accountID = .ok account)
    (hold : mapGet account.Groups newGroup.ID = some oldGroup)
    (hex : ∀ p ∈ newGroup.Peers ++ oldGroup.Peers, mapGet account.Peers p = some (peerOf p))
    (hok : (SaveGroup env w accountID userID newGroup).result = .ok ()) :
    (SaveGroup env w accountID userID newGroup).world.events =
      w.events ++
        (newGroup.Peers.filter (fun p => decide (p ∉ oldGroup.Peers))).map
          (fun p => peerEvent env userID accountID newGroup .GroupAddedToPeer (peerOf p)) ++
        (oldGroup.Peers.filter (fun p => decide (p ∉ newGroup.Peers))).map
          (fun p => peerEvent env userID accountID newGroup .GroupRemovedFromPeer (peerOf p)) ∧
    (∀ p, (newGroup.Peers.filter (fun p => decide (p ∉ oldGroup.Peers))).count p =
      if p ∈ oldGroup.Peers then 0 else newGroup.Peers.count p) ∧
    (∀ p, (oldGroup.Peers.filter (fun p => decide (p ∉ newGroup.Peers))).count p =
      if p ∈ newGroup.Peers then 0 else oldGroup.Peers.count p) ∧
    (newGroup.Peers.Nodup → ∀ p, p ∈ newGroup.Peers → p ∉ oldGroup.Peers →
      (newGroup.Peers.filter (fun p => decide (p ∉ oldGroup.Peers))).count p = 1) ∧
    (oldGroup.Peers.Nodup → ∀ p, p ∈ oldGroup.Peers → p ∉ newGroup.Peers →
      (oldGroup.Peers.filter (fun p => decide (p ∉ newGroup.Peers))).count p = 1) := by
  refine ⟨?_, count_filter_not_mem _ _, count_filter_not_mem _ _, ?_, ?_⟩
  · rw [SaveGroup_ok_events env w accountID userID newGroup account hacc hok]
    unfold saveGroupEvents
    simp only [hold, difference_eq_filter]
    rw [peerEvents_eq_map env account userID accountID newGroup .GroupAddedToPeer peerOf _
        (fun p hp => hex p (List.mem_append.mpr (Or.inl (List.mem_filter.mp hp).1))),
      peerEvents_eq_map env account userID accountID newGroup .GroupRemovedFromPeer peerOf _
        (fun p hp => hex p (List.mem_append.mpr (Or.inr (List.mem_filter.mp hp).1))),
      List.append_assoc]
  · intro hnd p hp hnp
    rw [count_filter_not_mem, if_neg hnp]
    exact List.count_eq_one_of_mem hnd hp
  · intro hnd p hp hnp
    rw [count_filter_not_mem, if_neg hnp]
    exact List.count_eq_one_of_mem hnd hp

theorem saveGroup_diff_events_witness :
    GetAccount sampleWorld "acc" = .ok sampleAccount ∧
    (SaveGroup envOk sampleWorld "acc" "u" dupGroup).result = .ok () ∧
    (SaveGroup envOk sampleWorld "acc" "u" dupGroup).world.events =
      sampleWorld.events ++
        (dupGroup.Peers.filter (fun p => decide (p ∉ ["p1", "p2"]))).map
          (fun p => peerEvent envOk "u" "acc" dupGroup .GroupAddedToPeer (samplePeerOf p)) ++
        (["p1", "p2"].filter (fun p => decide (p ∉ dupGroup.Peers))).map
          (fun p => peerEvent envOk "u" "acc" dupGroup .GroupRemovedFromPeer
            (samplePeerOf p)) :=
  ⟨rfl, rfl,
    (saveGroup_diff_events envOk sampleWorld "acc" "u" dupGroup sampleAccount
      { ID := "g1", Name := "G1", Issued := "api", Peers := ["p1", "p2"] } samplePeerOf
      rfl rfl (by decide) rfl).1⟩

/-- C4, counterexample: the stored group `g1` has peers `p1`, `p2`; the new group has peers
`p2`, `p3`, `p3`; all three are peers of the account. `p3` is in the new peers and not in the
old ones, and `SaveGroup` stores two `GroupAddedToPeer` events for `p3`, not one. -/
theorem saveGroup_duplicate_peer_two_events :
    GetAccount sampleWorld "acc" = .ok sampleAccount ∧
    mapGet sampleAccount.Groups dupGroup.ID
      = some { ID := "g1", Name := "G1", Issued := "api", Peers := ["p1", "p2"] } ∧
    (∀ p ∈ dupGroup.Peers ++ ["p1", "p2"], (mapGet sampleAccount.Peers p).isSome = true) ∧
    "p3" ∈ dupGroup.Peers ∧ "p3" ∉ ["p1", "p2"] ∧
    (SaveGroup envOk sampleWorld "acc" "u" dupGroup).result = .ok () ∧
    countEvents (SaveGroup envOk sampleWorld "acc" "u" dupGroup).world.events
      .GroupAddedToPeer "p3" = 2 ∧
    ¬ countEvents (SaveGroup envOk sampleWorld "acc" "u" dupGroup).world.events
      .GroupAddedToPeer "p3" = 1 := by
  refine ⟨rfl, rfl, by decide, by decide, by decide, rfl, by decide, by decide⟩

theorem peerEvents_activity (env : Env) (account : Account) (userID accountID : String)
    (newGroup : Group) (activityID : Activity) (ids : List String) (e : Event)
    (he : e ∈ peerEvents env account userID accountID newGroup activityID ids) :
    e.Activity = activityID := by
  unfold peerEvents at he
  obtain ⟨p, _, hp⟩ := List.mem_filterMap.mp he
  cases hpeer : mapGet account.Peers p with
  | none => simp [hpeer] at hp
  | some peer =>
    simp only [hpeer, Option.map_some', Option.some.injEq] at hp
    rw [← hp]
    rfl

/-- C5: when `newGroup.ID` is not yet a key of the groups and the `SaveAccount` and the
`updateAccountPeers` of the call succeed, `SaveGroup` returns success and the audit events are
those before the call followed by: one `GroupCreated` event with target `newGroup.ID` and meta
`name` = `newGroup.Name`, then one `GroupAddedToPeer` event for each entry of `newGroup.Peers`
that is a key of the peer collection, in the order of `newGroup.Peers` (an ID without a peer is
skipped); none of the new events is a `GroupRemovedFromPeer` event. -/
theorem saveGroup_new_group_events (env : Env) (w : World) (accountID userID : String)
    (newGroup : Group) (account : Account)
    (hacc : GetAccount w accountID = .ok account)
    (hnew : mapGet account.Groups newGroup.ID = none)
    (hsave : env.saveAccountErr w.trace (savedAccount account newGroup) = none)
    (hupd : env.updateAccountPeersErr
      (w.trace ++ [.saveAccount (savedAccount account newGroup) none])
      (savedAccount account newGroup) = none) :
    (SaveGroup env w accountID userID newGroup).result = .ok () ∧
    ∃ stored : List Event,
      (SaveGroup env w accountID userID newGroup).world.events = w.events ++ stored ∧
      stored =
        { InitiatorID := userID, TargetID := newGroup.ID, AccountID := accountID,
          Activity := .GroupCreated, Meta := [("name", newGroup.Name)] } ::
        newGroup.Peers.filterMap (fun p => (mapGet account.Peers p).map (fun peer =>
          { InitiatorID := userID, TargetID := peer.ID, AccountID := accountID,
            Activity := .GroupAddedToPeer,
            Meta := [("group", newGroup.Name), ("group_id", newGroup.ID), ("peer_ip", peer.IP),
                     ("peer_fqdn", env.peerFQDN peer)] })) ∧
      ∀ e ∈ stored, e.Activity ≠ .GroupRemovedFromPeer := by
  have hshape := SaveGroup_eq env w accountID userID newGroup account hacc
  rw [hsave] at hshape
  simp only [] at hshape
  rw [hupd] at hshape
  simp only [] at hshape
  have hok : (SaveGroup env w accountID userID newGroup).result = .ok () := by
    rw [hshape]
  refine ⟨hok, saveGroupEvents env account userID accountID newGroup,
    SaveGroup_ok_events env w accountID userID newGroup account hacc hok, ?_, ?_⟩
  · unfold saveGroupEvents
    simp only [hnew]
    rfl
  · intro e he
    unfold saveGroupEvents at he
    simp only [hnew, List.mem_cons] at he
    rcases he with he | he
    · rw [he]
      simp [groupCreatedEvent]
    · rw [peerEvents_activity _ _ _ _ _ _ _ _ he]
      decide

theorem saveGroup_new_group_events_witness :
    GetAccount sampleWorld "acc" = .ok sampleAccount ∧
    mapGet sampleAccount.Groups freshGroup.ID = none ∧
    (SaveGroup envOk sampleWorld "acc" "u" freshGroup).result = .ok () ∧
    (SaveGroup envOk sampleWorld "acc" "u" freshGroup).world.events =
      [groupCreatedEvent "u" "acc" freshGroup,
       peerEvent envOk "u" "acc" freshGroup .GroupAddedToPeer { ID := "p3", IP := "100.64.0.3" },
       peerEvent envOk "u" "acc" freshGroup .GroupAddedToPeer
         { ID := "p1", IP := "100.64.0.1" }] :=
  ⟨rfl, rfl,
    (saveGroup_new_group_events envOk sampleWorld "acc" "u" freshGroup sampleAccount
      rfl rfl rfl rfl).1, rfl⟩

/-- C6: after a successful `SaveGroup` the account the call worked on, which is also the
account persisted under the account's `Id`, maps `newGroup.ID` to `newGroup` exactly as given
(whether or not the ID was a key before), maps every other group key as before, and has the
same `Id`, `Peers`, `Routes`, `NameServerGroups`, `Policies`, `SetupKeys`, `Users` and
`DNSSettings` as the loaded account; the other accounts of the store are untouched. -/
theorem saveGroup_stores_group (env : Env) (w : World) (accountID userID : String)
    (newGroup : Group) (account : Account)
    (hacc : GetAccount w accountID = .ok account)
    (hok : (SaveGroup env w accountID userID newGroup).result = .ok ()) :
    ∃ saved : Account,
      (SaveGroup env w accountID userID newGroup).account = some saved ∧
      mapGet (SaveGroup env w accountID userID newGroup).world.accounts account.Id
        = some saved ∧
      mapGet saved.Groups newGroup.ID = some newGroup ∧
      (∀ k, k ≠ newGroup.ID → mapGet saved.Groups k = mapGet account.Groups k) ∧
      saved.Id = account.Id ∧ saved.Peers = account.Peers ∧ saved.Routes = account.Routes ∧
      saved.NameServerGroups = account.NameServerGroups ∧ saved.Policies = account.Policies ∧
      saved.SetupKeys = account.SetupKeys ∧ saved.Users = account.Users ∧
      saved.DNSSettings = account.DNSSettings ∧
      (∀ id, id ≠ account.Id →
        mapGet (SaveGroup env w accountID userID newGroup).world.accounts id
          = mapGet w.accounts id) := by
  rw [SaveGroup_ok env w accountID userID newGroup account hacc hok]
  refine ⟨savedAccount account newGroup, rfl, ?_, ?_, ?_, rfl, rfl, rfl, rfl, rfl, rfl, rfl,
    rfl, ?_⟩
  · simp only [mapGet_mapSet_self]
  · simp only [savedAccount, Account.IncSerial, mapGet_mapSet_self]
  · intro k hk
    simp only [savedAccount, Account.IncSerial, mapGet_mapSet_of_ne _ _ _ _ hk]
  · intro id hid
    simp only [mapGet_mapSet_of_ne _ _ _ _ hid]

theorem saveGroup_stores_group_witness :
    GetAccount sampleWorld "acc" = .ok sampleAccount ∧
    (SaveGroup envOk sampleWorld "acc" "u" dupGroup).result = .ok () ∧
    ∃ saved : Account,
      (SaveGroup envOk sampleWorld "acc" "u" dupGroup).account = some saved ∧
      mapGet (SaveGroup envOk sampleWorld "acc" "u" dupGroup).world.accounts sampleAccount.Id
        = some saved ∧
      mapGet saved.Groups dupGroup.ID = some dupGroup ∧
      (∀ k, k ≠ dupGroup.ID → mapGet saved.Groups k = mapGet sampleAccount.Groups k) ∧
      saved.Id = sampleAccount.Id ∧ saved.Peers = sampleAccount.Peers ∧
      saved.Routes = sampleAccount.Routes ∧
      saved.NameServerGroups = sampleAccount.NameServerGroups ∧
      saved.Policies = sampleAccount.Policies ∧
      saved.SetupKeys = sampleAccount.SetupKeys ∧ saved.Users = sampleAccount.Users ∧
      saved.DNSSettings = sampleAccount.DNSSettings ∧
      (∀ id, id ≠ sampleAccount.Id →
        mapGet (SaveGroup envOk sampleWorld "acc" "u" dupGroup).world.accounts id
          = mapGet sampleWorld.accounts id) :=
  ⟨rfl, rfl, saveGroup_stores_group envOk sampleWorld "acc" "u" dupGroup sampleAccount rfl rfl⟩

/-! ## Persist and propagate -/

theorem persistAndPropagate_ok {α : Type} (env : Env) (w : World) (account : Account) (r r1 : α)
    (hok : (persistAndPropagate env w account r).result = .ok r1) :
    persistAndPropagate env w account r =
      ⟨.ok r, some account,
        { accounts := mapSet w.accounts account.Id account,
          trace := w.trace ++ [.saveAccount account none] ++
            [.updateAccountPeers account none] }⟩ := by
  unfold persistAndPropagate SaveAccount updateAccountPeers at hok ⊢
  cases hs : env.saveAccountErr w.trace account with
  | some e =>
    simp only [hs] at hok
    exact Result.noConfusion hok
  | none =>
    simp only [hs] at hok ⊢
    cases hu : env.updateAccountPeersErr (w.trace ++ [.saveAccount account none]) account with
    | some e =>
      simp only [hu] at hok
      exact Result.noConfusion hok
    | none =>
      simp only [hu]

theorem persistAndPropagate_account {α : Type} (env : Env) (w : World) (account : Account)
    (r : α) : (persistAndPropagate env w account r).account = some account := by
  unfold persistAndPropagate
  cases hs : SaveAccount env w account with
  | mk e1 w1 =>
    cases e1 with
    | some e => rfl
    | none =>
      simp only []
      cases hu : updateAccountPeers env w1 account with
      | mk e2 w2 =>
        cases e2 with
        | some e => rfl
        | none => rfl

theorem UpdateGroup_eq (env : Env) (w : World) (accountID groupID : String)
    (operations : List GroupUpdateOperation) (account : Account) (groupToUpdate group : Group)
    (hacc : GetAccount w accountID = .ok account)
    (hg : mapGet account.Groups groupID = some groupToUpdate)
    (happ : applyOperations groupToUpdate.Copy operations = some group) :
    UpdateGroup env w accountID groupID operations =
      persistAndPropagate env w (updatedAccount account groupID group) group := by
  unfold UpdateGroup
  simp only [hacc, hg, happ]
  rfl

theorem GroupAddPeer_eq (env : Env) (w : World) (accountID groupID peerID : String)
    (account : Account) (group : Group)
    (hacc : GetAccount w accountID = .ok account)
    (hg : mapGet account.Groups groupID = some group) :
    GroupAddPeer env w accountID groupID peerID =
      persistAndPropagate env w (updatedAccount account groupID (addPeer group peerID)) () := by
  unfold GroupAddPeer
  simp only [hacc, hg]
  rfl

theorem SaveGroup_account (env : Env) (w : World) (accountID userID : String)
    (newGroup : Group) (account : Account) (hacc : GetAccount w accountID = .ok account) :
    (SaveGroup env w accountID userID newGroup).account
      = some (savedAccount account newGroup) := by
  rw [SaveGroup_eq env w accountID userID newGroup account hacc]
  cases env.saveAccountErr w.trace (savedAccount account newGroup) with
  | some e => rfl
  | none =>
    simp only []
    cases env.updateAccountPeersErr
        (w.trace ++ [.saveAccount (savedAccount account newGroup) none])
        (savedAccount account newGroup) with
    | some e => rfl
    | none => rfl

/-! ## GroupDeletePeer -/

/-- The loop of `GroupDeletePeer` calls neither `updateAccountPeers` nor `storeEvent`. -/
theorem deletePeerLoop_world (env : Env) (account : Account) (groupID : String) (group : Group)
    (peerKey : String) (fuel i : Nat) (backing peers : List String) (w : World) :
    (deletePeerLoop env account groupID group peerKey fuel i backing peers w).world.updateCalls
      = w.updateCalls ∧
    (deletePeerLoop env account groupID group peerKey fuel i backing peers w).world.events
      = w.events := by
  induction fuel generalizing i backing peers w with
  | zero => exact ⟨rfl, rfl⟩
  | succ fuel ih =>
    unfold deletePeerLoop
    cases hb : backing[i]? with
    | none => exact ⟨rfl, rfl⟩
    | some itemID =>
      simp only []
      by_cases hm : itemID = peerKey
      · simp only [hm, if_true]
        by_cases hlen : peers.length < i + 1
        · simp only [hlen, if_true]
          exact ⟨rfl, rfl⟩
        · simp only [hlen, if_false]
          unfold SaveAccount
          cases hs : env.saveAccountErr w.trace (setGroupPeers account groupID group
              (List.take i backing ++ List.drop (i + 1) peers)) with
          | some e =>
            simp only [LoopEnd.world, World.updateCalls, World.events,
              List.filterMap_append]
            simp
          | none =>
            simp only []
            have h := ih (i + 1)
              (List.take i backing ++ List.drop (i + 1) peers ++
                List.drop (List.take i backing ++ List.drop (i + 1) peers).length backing)
              (List.take i backing ++ List.drop (i + 1) peers)
              { accounts := mapSet w.accounts
                  (setGroupPeers account groupID group
                    (List.take i backing ++ List.drop (i + 1) peers)).Id
                  (setGroupPeers account groupID group
                    (List.take i backing ++ List.drop (i + 1) peers)),
                trace := w.trace ++ [.saveAccount (setGroupPeers account groupID group
                  (List.take i backing ++ List.drop (i + 1) peers)) none] }
            rw [h.1, h.2]
            simp [World.updateCalls, World.events, List.filterMap_append]
      · simp only [hm, if_false]
        exact ih (i + 1) backing peers w

/-- What a successful `GroupDeletePeer` leaves behind: the in-memory account carries the
incremented generation, and it is the one account handed to `updateAccountPeers`. -/
theorem GroupDeletePeer_ok (env : Env) (w : World) (accountID groupID peerKey : String)
    (account : Account) (hacc : GetAccount w accountID = .ok account)
    (hok : (GroupDeletePeer env w accountID groupID peerKey).result = .ok ()) :
    ∃ group peers, mapGet account.Groups groupID = some group ∧
      (GroupDeletePeer env w accountID groupID peerKey).account
        = some (setGroupPeers account.IncSerial groupID group peers) ∧
      (GroupDeletePeer env w accountID groupID peerKey).world.updateCalls
        = w.updateCalls ++ [setGroupPeers account.IncSerial groupID group peers] := by
  unfold GroupDeletePeer at hok ⊢
  simp only [hacc] at hok ⊢
  cases hg : mapGet account.Groups groupID with
  | none =>
    simp only [hg] at hok
    exact Result.noConfusion hok
  | some group =>
    simp only [hg] at hok ⊢
    have hw := deletePeerLoop_world env account.IncSerial groupID group peerKey
      group.Peers.length 0 group.Peers group.Peers w
    cases hloop : deletePeerLoop env account.IncSerial groupID group peerKey
        group.Peers.length 0 group.Peers group.Peers w with
    | crashed peers w1 =>
      simp only [hloop] at hok
      exact Result.noConfusion hok
    | failed e peers w1 =>
      simp only [hloop] at hok
      exact Result.noConfusion hok
    | done peers w1 =>
      simp only [hloop] at hok ⊢
      rw [hloop] at hw
      simp only [LoopEnd.world] at hw
      unfold updateAccountPeers at hok ⊢
      cases hu : env.updateAccountPeersErr w1.trace
          (setGroupPeers account.IncSerial groupID group peers) with
      | some e =>
        simp only [hu] at hok
        exact Result.noConfusion hok
      | none =>
        refine ⟨group, peers, rfl, rfl, ?_⟩
        simp only [World.updateCalls, List.filterMap_append] at hw ⊢
        rw [hw.1]
        simp

/-- Where the generation counter (`Network.Serial`) is incremented by one. After a successful
`SaveGroup`, `UpdateGroup`, `DeleteGroup` of an existing unreferenced group or `GroupAddPeer`,
the counter of the in-memory account and of the persisted account is the loaded value plus
one. After a successful `GroupDeletePeer` this is shown only of the in-memory account and of
the account handed to `updateAccountPeers`: the persisted counter is not covered, and it does
stay behind when the peer is not in the group. `GetGroup`, `ListGroups` and `GroupListPeers`
leave the world as it is and do not touch the loaded account. -/
theorem generation_counter (env : Env) (w : World) (accountID userID groupID peerID : String)
    (newGroup : Group) (operations : List GroupUpdateOperation) (account : Account)
    (hacc : GetAccount w accountID = .ok account) :
    ((SaveGroup env w accountID userID newGroup).result = .ok () →
      (SaveGroup env w accountID userID newGroup).serial = some (account.Network.Serial + 1) ∧
      (SaveGroup env w accountID userID newGroup).world.storedSerial account.Id
        = some (account.Network.Serial + 1)) ∧
    (∀ group, (UpdateGroup env w accountID groupID operations).result = .ok group →
      (UpdateGroup env w accountID groupID operations).serial
        = some (account.Network.Serial + 1) ∧
      (UpdateGroup env w accountID groupID operations).world.storedSerial account.Id
        = some (account.Network.Serial + 1)) ∧
    ((mapGet account.Groups groupID).isSome = true → ¬ Referenced account groupID →
      (DeleteGroup env w accountID userID groupID).result = .ok () →
      (DeleteGroup env w accountID userID groupID).serial = some (account.Network.Serial + 1) ∧
      (DeleteGroup env w accountID userID groupID).world.storedSerial account.Id
        = some (account.Network.Serial + 1)) ∧
    ((GroupAddPeer env w accountID groupID peerID).result = .ok () →
      (GroupAddPeer env w accountID groupID peerID).serial
        = some (account.Network.Serial + 1) ∧
      (GroupAddPeer env w accountID groupID peerID).world.storedSerial account.Id
        = some (account.Network.Serial + 1)) ∧
    ((GroupDeletePeer env w accountID groupID peerID).result = .ok () →
      (GroupDeletePeer env w accountID groupID peerID).serial
        = some (account.Network.Serial + 1) ∧
      ∃ pushed : Account,
        (GroupDeletePeer env w accountID groupID peerID).world.updateCalls
          = w.updateCalls ++ [pushed] ∧
        pushed.Network.Serial = account.Network.Serial + 1) ∧
    ((GetGroup w accountID groupID).world = w ∧
      (GetGroup w accountID groupID).serial = some account.Network.Serial) ∧
    ((ListGroups w accountID).world = w ∧
      (ListGroups w accountID).serial = some account.Network.Serial) ∧
    ((GroupListPeers w accountID groupID).world = w ∧
      (GroupListPeers w accountID groupID).serial = some account.Network.Serial) := by
  refine ⟨?_, ?_, ?_, ?_, ?_, ?_, ?_, ?_⟩
  · intro hok
    rw [SaveGroup_ok env w accountID userID newGroup account hacc hok]
    simp only [Outcome.serial, World.storedSerial, mapGet_mapSet_self]
    exact ⟨rfl, rfl⟩
  · intro group hok
    cases hg : mapGet account.Groups groupID with
    | none =>
      unfold UpdateGroup at hok
      simp only [hacc, hg] at hok
      exact Result.noConfusion hok
    | some groupToUpdate =>
      cases happ : applyOperations groupToUpdate.Copy operations with
      | none =>
        unfold UpdateGroup at hok
        simp only [hacc, hg, happ] at hok
        exact Result.noConfusion hok
      | some group1 =>
        rw [UpdateGroup_eq env w accountID groupID operations account groupToUpdate group1
          hacc hg happ] at hok ⊢
        rw [persistAndPropagate_ok env w _ group1 group hok]
        have hid : (updatedAccount account groupID group1).Id = account.Id := rfl
        simp only [Outcome.serial, World.storedSerial, hid, mapGet_mapSet_self]
        exact ⟨rfl, rfl⟩
  · intro hex hnr hok
    cases hg : mapGet account.Groups groupID with
    | none =>
      rw [hg] at hex
      exact Bool.noConfusion hex
    | some g =>
      have hl := (checkLinks_none account g groupID).mpr hnr
      have hshape := DeleteGroup_unlinked env w accountID userID groupID account g hacc hg hl
      cases hs : env.saveAccountErr w.trace (deletedAccount account groupID) with
      | some e =>
        rw [hs] at hshape
        rw [hshape] at hok
        exact Result.noConfusion hok
      | none =>
        rw [hs] at hshape
        cases hu : env.updateAccountPeersErr
            (w.trace ++ [.saveAccount (deletedAccount account groupID) none] ++
              [.storeEvent (groupDeletedEvent userID groupID accountID g)])
            (deletedAccount account groupID) with
        | some e =>
          rw [hu] at hshape
          rw [hshape] at hok
          exact Result.noConfusion hok
        | none =>
          rw [hu] at hshape
          rw [hshape]
          simp only [Outcome.serial, World.storedSerial, mapGet_mapSet_self]
          exact ⟨rfl, rfl⟩
  · intro hok
    cases hg : mapGet account.Groups groupID with
    | none =>
      unfold GroupAddPeer at hok
      simp only [hacc, hg] at hok
      exact Result.noConfusion hok
    | some group =>
      rw [GroupAddPeer_eq env w accountID groupID peerID account group hacc hg] at hok ⊢
      rw [persistAndPropagate_ok env w _ () () hok]
      have hid : (updatedAccount account groupID (addPeer group peerID)).Id = account.Id := rfl
      simp only [Outcome.serial, World.storedSerial, hid, mapGet_mapSet_self]
      exact ⟨rfl, rfl⟩
  · intro hok
    obtain ⟨group, peers, _, hacc2, hupd⟩ :=
      GroupDeletePeer_ok env w accountID groupID peerID account hacc hok
    refine ⟨?_, setGroupPeers account.IncSerial groupID group peers, hupd, rfl⟩
    simp only [Outcome.serial, hacc2]
    rfl
  · unfold GetGroup
    rw [hacc]
    dsimp only
    cases hg : mapGet account.Groups groupID with
    | none => exact ⟨rfl, rfl⟩
    | some g => exact ⟨rfl, rfl⟩
  · unfold ListGroups
    rw [hacc]
    exact ⟨rfl, rfl⟩
  · unfold GroupListPeers
    rw [hacc]
    dsimp only
    cases hg : mapGet account.Groups groupID with
    | none => exact ⟨rfl, rfl⟩
    | some g => exact ⟨rfl, rfl⟩

theorem generation_counter_witness :
    GetAccount sampleWorld "acc" = .ok sampleAccount ∧
    (GroupDeletePeer envOk sampleWorld "acc" "g1" "p1").result = .ok () ∧
    (GroupDeletePeer envOk sampleWorld "acc" "g1" "p1").serial = some (7 + 1) ∧
    (UpdateGroup envOk sampleWorld "acc" "g1" [⟨InsertPeersToGroup, ["p3"]⟩]).result
      = .ok { ID := "g1", Name := "G1", Issued := "api", Peers := ["p1", "p2", "p3"] } ∧
    (UpdateGroup envOk sampleWorld "acc" "g1" [⟨InsertPeersToGroup, ["p3"]⟩]).world.storedSerial
      "acc" = some (7 + 1) ∧
    (GetGroup sampleWorld "acc" "g1").world = sampleWorld :=
  ⟨rfl, rfl,
    ((generation_counter envOk sampleWorld "acc" "u" "g1" "p1" dupGroup
      [⟨InsertPeersToGroup, ["p3"]⟩] sampleAccount rfl).2.2.2.2.1 rfl).1,
    rfl,
    ((generation_counter envOk sampleWorld "acc" "u" "g1" "p1" dupGroup
      [⟨InsertPeersToGroup, ["p3"]⟩] sampleAccount rfl).2.1 _ rfl).2,
    (generation_counter envOk sampleWorld "acc" "u" "g1" "p1" dupGroup
      [⟨InsertPeersToGroup, ["p3"]⟩] sampleAccount rfl).2.2.2.2.2.1.1⟩

/-- C7: evaluation of `GroupDeletePeer` with a peer that is not in the group, on an account
whose generation counter is 7 before the call. The call succeeds and hands an account with
counter 8 to `updateAccountPeers`, but after the call the counter of the account in the store
is still 7, not 8. A second successful call hands counter 8 to `updateAccountPeers` again and
leaves the store at 7: the increment is never persisted. -/
theorem groupDeletePeer_absent_peer_serial_not_persisted :
    GetAccount sampleWorld "acc" = .ok sampleAccount ∧
    sampleWorld.storedSerial "acc" = some 7 ∧
    (GroupDeletePeer envOk sampleWorld "acc" "g1" "p9").result = .ok () ∧
    (GroupDeletePeer envOk sampleWorld "acc" "g1" "p9").world.storedSerial "acc" = some 7 ∧
    (GroupDeletePeer envOk sampleWorld "acc" "g1" "p9").world.storedSerial "acc"
      ≠ some (7 + 1) ∧
    (GroupDeletePeer envOk sampleWorld "acc" "g1" "p9").world.updateCalls.map
      (fun a => a.Network.Serial) = [8] ∧
    (GroupDeletePeer envOk (GroupDeletePeer envOk sampleWorld "acc" "g1" "p9").world
      "acc" "g1" "p9").result = .ok () ∧
    (GroupDeletePeer envOk (GroupDeletePeer envOk sampleWorld "acc" "g1" "p9").world
      "acc" "g1" "p9").world.storedSerial "acc" = some 7 ∧
    (GroupDeletePeer envOk (GroupDeletePeer envOk sampleWorld "acc" "g1" "p9").world
      "acc" "g1" "p9").world.updateCalls.map (fun a => a.Network.Serial) = [8, 8] := by
  refine ⟨rfl, rfl, rfl, rfl, by decide, rfl, rfl, rfl, rfl⟩

/-- C8: evaluation of `GroupDeletePeer` with a peer that is not in the group. The call
succeeds, the generation of the in-memory account is incremented and this account is handed to
`updateAccountPeers`, but `SaveAccount` is never called: the store still holds the account
with the old generation. -/
theorem groupDeletePeer_absent_peer_not_saved :
    mapGet sampleAccount.Groups "g1"
      = some { ID := "g1", Name := "G1", Issued := "api", Peers := ["p1", "p2"] } ∧
    (GroupDeletePeer envOk sampleWorld "acc" "g1" "p9").result = .ok () ∧
    (GroupDeletePeer envOk sampleWorld "acc" "g1" "p9").world.saveCalls = [] ∧
    (GroupDeletePeer envOk sampleWorld "acc" "g1" "p9").world.trace =
      [.updateAccountPeers sampleAccount.IncSerial none] ∧
    (GroupDeletePeer envOk sampleWorld "acc" "g1" "p9").world.storedSerial "acc" = some 7 ∧
    (GroupDeletePeer envOk sampleWorld "acc" "g1" "p9").serial = some 8 := by
  refine ⟨rfl, rfl, rfl, rfl, rfl, rfl⟩

/-! ## difference -/

/-- C18: `difference a b` is `a` filtered to the entries that do not occur in `b`, in the order
and with the multiplicities of `a`; an ID is in the result exactly when it is in `a` and not in
`b`; `difference a a` is empty and `difference a []` is `a`. -/
theorem difference_spec (a b : List String) :
    difference a b = a.filter (fun x => decide (x ∉ b)) ∧
    (∀ x, x ∈ difference a b ↔ x ∈ a ∧ x ∉ b) ∧
    (∀ x, (difference a b).count x = if x ∈ b then 0 else a.count x) ∧
    difference a a = [] ∧
    difference a [] = a := by
  refine ⟨difference_eq_filter a b, ?_, ?_, ?_, ?_⟩
  · intro x
    rw [difference_eq_filter, List.mem_filter]
    simp
  · intro x
    rw [difference_eq_filter]
    exact count_filter_not_mem a b x
  · rw [difference_eq_filter, List.filter_eq_nil_iff]
    intro x hx
    simp [hx]
  · rw [difference_eq_filter]
    simp

/-! ## Failure of SaveAccount -/

theorem persistAndPropagate_save_fails {α : Type} (env : Env) (w : World) (account : Account)
    (r : α) (e : Error) (hs : env.saveAccountErr w.trace account = some e) :
    AbortedBySave (persistAndPropagate env w account r) w e := by
  unfold persistAndPropagate SaveAccount
  simp only [hs]
  refine ⟨rfl, rfl, fun _ => rfl, ?_, ?_⟩
  · simp [World.updateCalls, List.filterMap_append]
  · simp [World.events, List.filterMap_append]

/-- C11: when the `SaveAccount` of the call fails with `e`, each of `SaveGroup`, `UpdateGroup`
(on an existing group, with operations that apply), `DeleteGroup` (of an existing unreferenced
group) and `GroupAddPeer` (on an existing group) returns `e`, does not call
`updateAccountPeers`, stores no audit event, and leaves the persisted accounts, with their
generation counters, as they were. -/
theorem save_failure_aborts (env : Env) (w : World) (accountID userID groupID peerID : String)
    (newGroup : Group) (operations : List GroupUpdateOperation) (account : Account) (e : Error)
    (hacc : GetAccount w accountID = .ok account) :
    (env.saveAccountErr w.trace (savedAccount account newGroup) = some e →
      AbortedBySave (SaveGroup env w accountID userID newGroup) w e) ∧
    (∀ groupToUpdate group, mapGet account.Groups groupID = some groupToUpdate →
      applyOperations groupToUpdate.Copy operations = some group →
      env.saveAccountErr w.trace (updatedAccount account groupID group) = some e →
      AbortedBySave (UpdateGroup env w accountID groupID operations) w e) ∧
    (∀ g, mapGet account.Groups groupID = some g → ¬ Referenced account groupID →
      env.saveAccountErr w.trace (deletedAccount account groupID) = some e →
      AbortedBySave (DeleteGroup env w accountID userID groupID) w e) ∧
    (∀ group, mapGet account.Groups groupID = some group →
      env.saveAccountErr w.trace (updatedAccount account groupID (addPeer group peerID))
        = some e →
      AbortedBySave (GroupAddPeer env w accountID groupID peerID) w e) := by
  refine ⟨?_, ?_, ?_, ?_⟩
  · intro hs
    rw [SaveGroup_eq env w accountID userID newGroup account hacc, hs]
    refine ⟨rfl, rfl, fun _ => rfl, ?_, ?_⟩
    · simp [World.updateCalls, List.filterMap_append]
    · simp [World.events, List.filterMap_append]
  · intro groupToUpdate group hg happ hs
    rw [UpdateGroup_eq env w accountID groupID operations account groupToUpdate group
      hacc hg happ]
    exact persistAndPropagate_save_fails env w _ group e hs
  · intro g hg hnr hs
    have hl := (checkLinks_none account g groupID).mpr hnr
    rw [DeleteGroup_unlinked env w accountID userID groupID account g hacc hg hl, hs]
    refine ⟨rfl, rfl, fun _ => rfl, ?_, ?_⟩
    · simp [World.updateCalls, List.filterMap_append]
    · simp [World.events, List.filterMap_append]
  · intro group hg hs
    rw [GroupAddPeer_eq env w accountID groupID peerID account group hacc hg]
    exact persistAndPropagate_save_fails env w _ () e hs

theorem save_failure_aborts_witness :
    GetAccount sampleWorld "acc" = .ok sampleAccount ∧
    AbortedBySave (SaveGroup envSaveFails sampleWorld "acc" "u" dupGroup) sampleWorld
      (.external "save failed") ∧
    AbortedBySave (UpdateGroup envSaveFails sampleWorld "acc" "g1"
      [⟨UpdateGroupPeers, ["p3"]⟩]) sampleWorld (.external "save failed") ∧
    AbortedBySave (DeleteGroup envSaveFails sampleWorld "acc" "u" "g1") sampleWorld
      (.external "save failed") ∧
    AbortedBySave (GroupAddPeer envSaveFails sampleWorld "acc" "g1" "p3") sampleWorld
      (.external "save failed") :=
  ⟨rfl,
    (save_failure_aborts envSaveFails sampleWorld "acc" "u" "g1" "p3" dupGroup
      [⟨UpdateGroupPeers, ["p3"]⟩] sampleAccount (.external "save failed") rfl).1 rfl,
    (save_failure_aborts envSaveFails sampleWorld "acc" "u" "g1" "p3" dupGroup
      [⟨UpdateGroupPeers, ["p3"]⟩] sampleAccount (.external "save failed") rfl).2.1
      _ _ rfl rfl rfl,
    (save_failure_aborts envSaveFails sampleWorld "acc" "u" "g1" "p3" dupGroup
      [⟨UpdateGroupPeers, ["p3"]⟩] sampleAccount (.external "save failed") rfl).2.2.1
      _ rfl (by decide) rfl,
    (save_failure_aborts envSaveFails sampleWorld "acc" "u" "g1" "p3" dupGroup
      [⟨UpdateGroupPeers, ["p3"]⟩] sampleAccount (.external "save failed") rfl).2.2.2
      _ rfl rfl⟩

/-! ## Absent group -/

/-- C15: for an existing account and a group ID that is not a key of its groups, each of
`GetGroup`, `UpdateGroup`, `GroupAddPeer`, `GroupDeletePeer` and `GroupListPeers` fails with a
NotFound error and has no effect: the world (persisted groups and generation counters, history
of `SaveAccount` and `updateAccountPeers` calls, audit events) and the loaded account are as
before the call. -/
theorem group_not_found (env : Env) (w : World) (accountID groupID peerID : String)
    (operations : List GroupUpdateOperation) (account : Account)
    (hacc : GetAccount w accountID = .ok account)
    (hg : mapGet account.Groups groupID = none) :
    NotFoundNoEffect (GetGroup w accountID groupID) w account ∧
    NotFoundNoEffect (UpdateGroup env w accountID groupID operations) w account ∧
    NotFoundNoEffect (GroupAddPeer env w accountID groupID peerID) w account ∧
    NotFoundNoEffect (GroupDeletePeer env w accountID groupID peerID) w account ∧
    NotFoundNoEffect (GroupListPeers w accountID groupID) w account := by
  refine ⟨?_, ?_, ?_, ?_, ?_⟩
  · unfold GetGroup
    simp only [hacc, hg]
    exact ⟨⟨_, rfl⟩, rfl, rfl, rfl, rfl, rfl⟩
  · unfold UpdateGroup
    simp only [hacc, hg]
    exact ⟨⟨_, rfl⟩, rfl, rfl, rfl, rfl, rfl⟩
  · unfold GroupAddPeer
    simp only [hacc, hg]
    exact ⟨⟨_, rfl⟩, rfl, rfl, rfl, rfl, rfl⟩
  · unfold GroupDeletePeer
    simp only [hacc, hg]
    exact ⟨⟨_, rfl⟩, rfl, rfl, rfl, rfl, rfl⟩
  · unfold GroupListPeers
    simp only [hacc, hg]
    exact ⟨⟨_, rfl⟩, rfl, rfl, rfl, rfl, rfl⟩

theorem group_not_found_witness :
    GetAccount sampleWorld "acc" = .ok sampleAccount ∧
    mapGet sampleAccount.Groups "g9" = none ∧
    NotFoundNoEffect (GetGroup sampleWorld "acc" "g9") sampleWorld sampleAccount ∧
    NotFoundNoEffect (UpdateGroup envOk sampleWorld "acc" "g9" [⟨UpdateGroupPeers, ["p3"]⟩])
      sampleWorld sampleAccount ∧
    NotFoundNoEffect (GroupAddPeer envOk sampleWorld "acc" "g9" "p1") sampleWorld
      sampleAccount ∧
    NotFoundNoEffect (GroupDeletePeer envOk sampleWorld "acc" "g9" "p1") sampleWorld
      sampleAccount ∧
    NotFoundNoEffect (GroupListPeers sampleWorld "acc" "g9") sampleWorld sampleAccount :=
  ⟨rfl, rfl,
    group_not_found envOk sampleWorld "acc" "g9" "p1" [⟨UpdateGroupPeers, ["p3"]⟩]
      sampleAccount rfl rfl⟩

/-! ## UpdateGroup -/

theorem Group.Copy_eq (g : Group) : g.Copy = g := by
  cases g
  rfl

theorem persistAndPropagate_succeeds {α : Type} (env : Env) (w : World) (account : Account)
    (r : α) (hs : env.saveAccountErr w.trace account = none)
    (hu : env.updateAccountPeersErr (w.trace ++ [.saveAccount account none]) account = none) :
    persistAndPropagate env w account r =
      ⟨.ok r, some account,
        { accounts := mapSet w.accounts account.Id account,
          trace := w.trace ++ [.saveAccount account none] ++
            [.updateAccountPeers account none] }⟩ := by
  unfold persistAndPropagate SaveAccount updateAccountPeers
  simp only [hs, hu]

/-- The result of `UpdateGroup` on an existing group whose operations apply: a returned group
is the group after the operations, and it is returned when the collaborators do not fail. -/
theorem UpdateGroup_result (env : Env) (w : World) (accountID groupID : String)
    (operations : List GroupUpdateOperation) (account : Account) (stored group : Group)
    (hacc : GetAccount w accountID = .ok account)
    (hg : mapGet account.Groups groupID = some stored)
    (happ : applyOperations stored operations = some group) :
    (∀ g, (UpdateGroup env w accountID groupID operations).result = .ok g → g = group) ∧
    (env.succeeds → (UpdateGroup env w accountID groupID operations).result = .ok group) := by
  have happ2 : applyOperations stored.Copy operations = some group := by
    rw [Group.Copy_eq]
    exact happ
  rw [UpdateGroup_eq env w accountID groupID operations account stored group hacc hg happ2]
  constructor
  · intro g hok
    have h := persistAndPropagate_ok env w _ group g hok
    rw [h] at hok
    exact (Result.ok.inj hok).symm
  · intro hs
    rw [persistAndPropagate_succeeds env w _ group (hs _ _).1 (hs _ _).2]

theorem applyOperations_unknown (group : Group) (operations : List GroupUpdateOperation)
    (hops : ∀ op ∈ operations, op.OpType ≠ UpdateGroupName ∧ op.OpType ≠ InsertPeersToGroup ∧
      op.OpType ≠ RemovePeersFromGroup ∧ op.OpType ≠ UpdateGroupPeers) :
    applyOperations group operations = some group := by
  induction operations with
  | nil => rfl
  | cons op rest ih =>
    obtain ⟨h0, h1, h2, h3⟩ := hops op (List.mem_cons_self op rest)
    unfold applyOperations applyOperation
    simp only [h0, h1, h2, h3, if_false]
    exact ih (fun o ho => hops o (List.mem_cons_of_mem op ho))

/-- C14: for an existing group and a batch in which no operation has one of the types
`UpdateGroupName` (0), `InsertPeersToGroup` (1), `RemovePeersFromGroup` (2), `UpdateGroupPeers`
(3), in particular the empty batch, and with `SaveAccount` and `updateAccountPeers`
succeeding, `UpdateGroup` returns without error the stored group, equal in `ID`, `Name`,
`Issued` and `Peers`; the generation has been incremented, and the account has been handed
once to `SaveAccount` and then once to `updateAccountPeers`. -/
theorem updateGroup_unknown_operations (env : Env) (w : World) (accountID groupID : String)
    (operations : List GroupUpdateOperation) (account : Account) (stored : Group)
    (hacc : GetAccount w accountID = .ok account)
    (hg : mapGet account.Groups groupID = some stored)
    (hops : ∀ op ∈ operations, op.OpType ≠ UpdateGroupName ∧ op.OpType ≠ InsertPeersToGroup ∧
      op.OpType ≠ RemovePeersFromGroup ∧ op.OpType ≠ UpdateGroupPeers)
    (hsave : env.saveAccountErr w.trace (updatedAccount account groupID stored) = none)
    (hupd : env.updateAccountPeersErr
      (w.trace ++ [.saveAccount (updatedAccount account groupID stored) none])
      (updatedAccount account groupID stored) = none) :
    ∃ group pushed,
      (UpdateGroup env w accountID groupID operations).result = .ok group ∧
      group.ID = stored.ID ∧ group.Name = stored.Name ∧ group.Issued = stored.Issued ∧
      group.Peers = stored.Peers ∧
      (UpdateGroup env w accountID groupID operations).account = some pushed ∧
      pushed.Network.Serial = account.Network.Serial + 1 ∧
      (UpdateGroup env w accountID groupID operations).world.storedSerial account.Id
        = some (account.Network.Serial + 1) ∧
      (UpdateGroup env w accountID groupID operations).world.trace
        = w.trace ++ [.saveAccount pushed none, .updateAccountPeers pushed none] := by
  have happ : applyOperations stored.Copy operations = some stored := by
    rw [Group.Copy_eq]
    exact applyOperations_unknown stored operations hops
  rw [UpdateGroup_eq env w accountID groupID operations account stored stored hacc hg happ,
    persistAndPropagate_succeeds env w _ stored hsave hupd]
  refine ⟨stored, updatedAccount account groupID stored, rfl, rfl, rfl, rfl, rfl, rfl, rfl,
    ?_, ?_⟩
  · have hid : (updatedAccount account groupID stored).Id = account.Id := rfl
    simp only [World.storedSerial, hid, mapGet_mapSet_self]
    rfl
  · simp

theorem updateGroup_unknown_operations_witness :
    GetAccount sampleWorld "acc" = .ok sampleAccount ∧
    ∃ group pushed,
      (UpdateGroup envOk sampleWorld "acc" "g1" [⟨7, ["x"]⟩, ⟨-1, []⟩]).result = .ok group ∧
      group.ID = "g1" ∧ group.Name = "G1" ∧ group.Issued = "api" ∧
      group.Peers = ["p1", "p2"] ∧
      (UpdateGroup envOk sampleWorld "acc" "g1" [⟨7, ["x"]⟩, ⟨-1, []⟩]).account
        = some pushed ∧
      pushed.Network.Serial = sampleAccount.Network.Serial + 1 ∧
      (UpdateGroup envOk sampleWorld "acc" "g1" [⟨7, ["x"]⟩, ⟨-1, []⟩]).world.storedSerial
        sampleAccount.Id = some (sampleAccount.Network.Serial + 1) ∧
      (UpdateGroup envOk sampleWorld "acc" "g1" [⟨7, ["x"]⟩, ⟨-1, []⟩]).world.trace
        = sampleWorld.trace ++ [.saveAccount pushed none, .updateAccountPeers pushed none] :=
  ⟨rfl,
    updateGroup_unknown_operations envOk sampleWorld "acc" "g1" [⟨7, ["x"]⟩, ⟨-1, []⟩]
      sampleAccount { ID := "g1", Name := "G1", Issued := "api", Peers := ["p1", "p2"] }
      rfl rfl (by decide) rfl rfl⟩

theorem removeFromList_eq_filter (inputList toRemove : List String) :
    removeFromList inputList toRemove = inputList.filter (fun x => decide (x ∉ toRemove)) := by
  unfold removeFromList
  apply List.filter_congr
  intro x _
  simp

theorem applyOperations_insert (group : Group) (values : List String) :
    applyOperations group [⟨InsertPeersToGroup, values⟩] =
      some { group with
        Peers := group.Peers.filter (fun x => decide (x ∉ values)) ++ values } := by
  simp [applyOperations, applyOperation, removeFromList_eq_filter, InsertPeersToGroup,
    UpdateGroupName, UpdateGroupPeers]

theorem applyOperations_remove (group : Group) (values : List String) :
    applyOperations group [⟨RemovePeersFromGroup, values⟩] =
      some { group with Peers := group.Peers.filter (fun x => decide (x ∉ values)) } := by
  simp [applyOperations, applyOperation, removeFromList_eq_filter, InsertPeersToGroup,
    UpdateGroupName, UpdateGroupPeers, RemovePeersFromGroup]

theorem applyOperations_insert_remove (group : Group) (values removed : List String) :
    applyOperations group [⟨InsertPeersToGroup, values⟩, ⟨RemovePeersFromGroup, removed⟩] =
      some { group with
        Peers := (group.Peers.filter (fun x => decide (x ∉ values)) ++ values).filter
          (fun x => decide (x ∉ removed)) } := by
  simp [applyOperations, applyOperation, removeFromList_eq_filter, InsertPeersToGroup,
    UpdateGroupName, UpdateGroupPeers, RemovePeersFromGroup]

/-- C12 (as corrected): for an existing group, `UpdateGroup` with the single operation
`InsertPeersToGroup` with `values` returns (and does return, when the collaborators do not
fail) a group whose `Peers` are the stored peers without the entries of `values`, in order,
followed by `values`; every entry of `values` and every stored peer is present; and the result
has no duplicates when neither the stored peers nor `values` have any. -/
theorem updateGroup_insert_peers (env : Env) (w : World) (accountID groupID : String)
    (values : List String) (account : Account) (stored : Group)
    (hacc : GetAccount w accountID = .ok account)
    (hg : mapGet account.Groups groupID = some stored) :
    (∀ g, (UpdateGroup env w accountID groupID [⟨InsertPeersToGroup, values⟩]).result = .ok g →
      g.Peers = stored.Peers.filter (fun x => decide (x ∉ values)) ++ values ∧
      (∀ x ∈ values, x ∈ g.Peers) ∧ (∀ x ∈ stored.Peers, x ∈ g.Peers) ∧
      (stored.Peers.Nodup → values.Nodup → g.Peers.Nodup)) ∧
    (env.succeeds →
      ∃ g, (UpdateGroup env w accountID groupID [⟨InsertPeersToGroup, values⟩]).result
        = .ok g) := by
  have hres := UpdateGroup_result env w accountID groupID [⟨InsertPeersToGroup, values⟩]
    account stored _ hacc hg (applyOperations_insert stored values)
  refine ⟨fun g hok => ?_, fun hs => ⟨_, hres.2 hs⟩⟩
  rw [hres.1 g hok]
  refine ⟨rfl, ?_, ?_, ?_⟩
  · intro x hx
    exact List.mem_append.mpr (Or.inr hx)
  · intro x hx
    by_cases hv : x ∈ values
    · exact List.mem_append.mpr (Or.inr hv)
    · exact List.mem_append.mpr (Or.inl (List.mem_filter.mpr ⟨hx, by simp [hv]⟩))
  · intro hn hv
    refine List.nodup_append.mpr ⟨hn.filter _, hv, ?_⟩
    intro x hx hxv
    have := (List.mem_filter.mp hx).2
    simp [hxv] at this

theorem updateGroup_insert_peers_witness :
    GetAccount sampleWorld "acc" = .ok sampleAccount ∧
    (UpdateGroup envOk sampleWorld "acc" "g1" [⟨InsertPeersToGroup, ["p3", "p1"]⟩]).result
      = .ok { ID := "g1", Name := "G1", Issued := "api", Peers := ["p2", "p3", "p1"] } ∧
    ({ ID := "g1", Name := "G1", Issued := "api", Peers := ["p2", "p3", "p1"] } : Group).Peers
      = (["p1", "p2"].filter (fun x => decide (x ∉ ["p3", "p1"]))) ++ ["p3", "p1"] :=
  ⟨rfl, rfl,
    ((updateGroup_insert_peers envOk sampleWorld "acc" "g1" ["p3", "p1"] sampleAccount
      { ID := "g1", Name := "G1", Issued := "api", Peers := ["p1", "p2"] } rfl rfl).1
      _ rfl).1⟩

/-- C12, counterexample: the stored group `g1` has peers `p1`, `p2`; `UpdateGroup` with the
single operation `InsertPeersToGroup` with values `p3`, `p3` returns a group whose `Peers`
contain `p3` twice. -/
theorem updateGroup_insert_duplicate_values :
    mapGet sampleAccount.Groups "g1"
      = some { ID := "g1", Name := "G1", Issued := "api", Peers := ["p1", "p2"] } ∧
    (UpdateGroup envOk sampleWorld "acc" "g1" [⟨InsertPeersToGroup, ["p3", "p3"]⟩]).result
      = .ok { ID := "g1", Name := "G1", Issued := "api", Peers := ["p1", "p2", "p3", "p3"] } ∧
    ¬ (["p1", "p2", "p3", "p3"] : List String).Nodup := by
  refine ⟨rfl, rfl, by decide⟩

/-- C13: for an existing group, a group returned by `UpdateGroup` for the batch
`InsertPeersToGroup [a, b]`, `RemovePeersFromGroup [a]` on empty stored peers, with `a ≠ b`,
has `Peers = [b]` (and it is returned when the collaborators do not fail); for the batch
`InsertPeersToGroup values`, `RemovePeersFromGroup removed` the peers are the entries of
(stored peers without `values`) followed by `values` that are not in `removed`, in order; and
`RemovePeersFromGroup` of IDs none of which is a stored peer leaves the peers as they are. -/
theorem updateGroup_insert_then_remove (env : Env) (w : World) (accountID groupID : String)
    (account : Account) (stored : Group)
    (hacc : GetAccount w accountID = .ok account)
    (hg : mapGet account.Groups groupID = some stored) :
    (∀ a b : String, a ≠ b → stored.Peers = [] →
      (∀ g, (UpdateGroup env w accountID groupID
          [⟨InsertPeersToGroup, [a, b]⟩, ⟨RemovePeersFromGroup, [a]⟩]).result = .ok g →
        g.Peers = [b]) ∧
      (env.succeeds → ∃ g, (UpdateGroup env w accountID groupID
          [⟨InsertPeersToGroup, [a, b]⟩, ⟨RemovePeersFromGroup, [a]⟩]).result = .ok g ∧
        g.Peers = [b])) ∧
    (∀ values removed g, (UpdateGroup env w accountID groupID
        [⟨InsertPeersToGroup, values⟩, ⟨RemovePeersFromGroup, removed⟩]).result = .ok g →
      g.Peers = (stored.Peers.filter (fun x => decide (x ∉ values)) ++ values).filter
        (fun x => decide (x ∉ removed))) ∧
    (∀ removed g, (∀ x ∈ removed, x ∉ stored.Peers) →
      (UpdateGroup env w accountID groupID [⟨RemovePeersFromGroup, removed⟩]).result = .ok g →
      g.Peers = stored.Peers) := by
  refine ⟨fun a b hab hempty => ?_, fun values removed g hok => ?_,
    fun removed g habs hok => ?_⟩
  · have hres := UpdateGroup_result env w accountID groupID
      [⟨InsertPeersToGroup, [a, b]⟩, ⟨RemovePeersFromGroup, [a]⟩]
      account stored _ hacc hg (applyOperations_insert_remove stored [a, b] [a])
    have hpeers : (stored.Peers.filter (fun x => decide (x ∉ [a, b])) ++ [a, b]).filter
        (fun x => decide (x ∉ [a])) = [b] := by
      rw [hempty]
      have hba : ¬ b = a := fun h => hab h.symm
      simp [List.filter_cons, hba]
    refine ⟨fun g hok => ?_, fun hs => ⟨_, hres.2 hs, hpeers⟩⟩
    rw [hres.1 g hok]
    exact hpeers
  · have hres := UpdateGroup_result env w accountID groupID
      [⟨InsertPeersToGroup, values⟩, ⟨RemovePeersFromGroup, removed⟩]
      account stored _ hacc hg (applyOperations_insert_remove stored values removed)
    rw [hres.1 g hok]
  · have hres := UpdateGroup_result env w accountID groupID
      [⟨RemovePeersFromGroup, removed⟩]
      account stored _ hacc hg (applyOperations_remove stored removed)
    rw [hres.1 g hok]
    apply List.filter_eq_self.mpr
    intro x hx
    have : x ∉ removed := fun hr => habs x hr hx
    simp [this]

theorem updateGroup_insert_then_remove_witness :
    GetAccount sampleWorld "acc" = .ok sampleAccount ∧
    (UpdateGroup envOk sampleWorld "acc" "g1"
      [⟨InsertPeersToGroup, ["p3"]⟩, ⟨RemovePeersFromGroup, ["p1", "p9"]⟩]).result
      = .ok { ID := "g1", Name := "G1", Issued := "api", Peers := ["p2", "p3"] } ∧
    ({ ID := "g1", Name := "G1", Issued := "api", Peers := ["p2", "p3"] } : Group).Peers
      = ((["p1", "p2"].filter (fun x => decide (x ∉ ["p3"]))) ++ ["p3"]).filter
          (fun x => decide (x ∉ ["p1", "p9"])) :=
  ⟨rfl, rfl,
    (updateGroup_insert_then_remove envOk sampleWorld "acc" "g1" sampleAccount
      { ID := "g1", Name := "G1", Issued := "api", Peers := ["p1", "p2"] } rfl rfl).2.1
      _ _ _ rfl⟩

/-! ## The removal loop of GroupDeletePeer -/

theorem mem_drop_of_getElem (l : List String) (i : Nat) (x : String) (h : l[i]? = some x) :
    x ∈ l.drop i := by
  obtain ⟨hi, hx⟩ := List.getElem?_eq_some.mp h
  rw [List.drop_eq_getElem_cons hi, hx]
  exact List.mem_cons_self _ _

theorem mem_drop_of_mem_drop_succ (l : List String) (i : Nat) (y : String)
    (h : y ∈ l.drop (i + 1)) : y ∈ l.drop i := by
  rw [← List.drop_drop 1 i] at h
  exact List.mem_of_mem_drop h

/-- When no cell of the backing array from index `i` on holds `peerKey`, the loop runs to its
end without touching `group.Peers` or the world. -/
theorem deletePeerLoop_no_match (env : Env) (account : Account) (groupID : String)
    (group : Group) (peerKey : String) (fuel i : Nat) (backing peers : List String)
    (w : World) (h : ∀ x ∈ backing.drop i, x ≠ peerKey) :
    deletePeerLoop env account groupID group peerKey fuel i backing peers w
      = .done peers w := by
  induction fuel generalizing i with
  | zero => rfl
  | succ fuel ih =>
    unfold deletePeerLoop
    cases hb : backing[i]? with
    | none => rfl
    | some itemID =>
      have hne : ¬ itemID = peerKey := h itemID (mem_drop_of_getElem backing i itemID hb)
      simp only [hne, if_false]
      exact ih (i + 1) (fun x hx => h x (mem_drop_of_mem_drop_succ backing i x hx))

theorem addPeer_peers (group : Group) (peerID : String) :
    (addPeer group peerID).Peers =
      if peerID ∈ group.Peers then group.Peers else group.Peers ++ [peerID] := by
  unfold addPeer
  by_cases h : peerID ∈ group.Peers
  · simp [h, (any_beq_iff group.Peers peerID).mpr h]
  · have h2 : ¬ (group.Peers.any (fun itemID => itemID == peerID) = true) :=
      fun hc => h ((any_beq_iff _ _).mp hc)
    simp only [Bool.not_eq_true] at h2
    simp [h, h2]

theorem addPeer_count (group : Group) (peerID : String) :
    (addPeer group peerID).Peers.count peerID = max 1 (group.Peers.count peerID) := by
  rw [addPeer_peers]
  by_cases h : peerID ∈ group.Peers
  · rw [if_pos h]
    have := List.count_pos_iff.mpr h
    omega
  · rw [if_neg h, List.count_append, List.count_eq_zero.mpr h]
    simp

theorem persistAndPropagate_events {α : Type} (env : Env) (w : World) (account : Account)
    (r : α) : (persistAndPropagate env w account r).world.events = w.events := by
  unfold persistAndPropagate SaveAccount updateAccountPeers
  cases hs : env.saveAccountErr w.trace account with
  | some e => simp [World.events, List.filterMap_append]
  | none =>
    simp only []
    cases hu : env.updateAccountPeersErr (w.trace ++ [.saveAccount account none]) account with
    | some e => simp [World.events, List.filterMap_append]
    | none => simp [World.events, List.filterMap_append]

theorem GroupAddPeer_events (env : Env) (w : World) (accountID groupID peerID : String) :
    (GroupAddPeer env w accountID groupID peerID).world.events = w.events := by
  cases hacc : GetAccount w accountID with
  | error e =>
    unfold GroupAddPeer
    simp only [hacc]
  | ok account =>
    cases hg : mapGet account.Groups groupID with
    | none =>
      unfold GroupAddPeer
      simp only [hacc, hg]
    | some group =>
      rw [GroupAddPeer_eq env w accountID groupID peerID account group hacc hg]
      exact persistAndPropagate_events env w _ ()

theorem GroupDeletePeer_events (env : Env) (w : World) (accountID groupID peerKey : String) :
    (GroupDeletePeer env w accountID groupID peerKey).world.events = w.events := by
  unfold GroupDeletePeer
  cases hacc : GetAccount w accountID with
  | error e => rfl
  | ok account =>
    simp only []
    cases hg : mapGet account.Groups groupID with
    | none => rfl
    | some group =>
      simp only []
      have hw := deletePeerLoop_world env account.IncSerial groupID group peerKey
        group.Peers.length 0 group.Peers group.Peers w
      cases hloop : deletePeerLoop env account.IncSerial groupID group peerKey
          group.Peers.length 0 group.Peers group.Peers w with
      | crashed peers w1 =>
        rw [hloop] at hw
        exact hw.2
      | failed e peers w1 =>
        rw [hloop] at hw
        exact hw.2
      | done peers w1 =>
        rw [hloop] at hw
        simp only [LoopEnd.world] at hw
        simp only [updateAccountPeers]
        cases hu : env.updateAccountPeersErr w1.trace
            (setGroupPeers account.IncSerial groupID group peers) with
        | some e =>
          simp only [World.events, List.filterMap_append] at hw ⊢
          rw [hw.2]
          simp
        | none =>
          simp only [World.events, List.filterMap_append] at hw ⊢
          rw [hw.2]
          simp

theorem setGroupPeers_self (account : Account) (groupID : String) (group : Group)
    (hg : mapGet account.Groups groupID = some group) :
    setGroupPeers account groupID group group.Peers = account := by
  unfold setGroupPeers
  have hgrp : ({ group with Peers := group.Peers } : Group) = group := by
    cases group
    rfl
  rw [hgrp, mapSet_of_mapGet account.Groups groupID group hg]

/-- C16: for an existing group. A successful `GroupAddPeer` leaves, in the account it worked on
and persisted, the group with `Peers` unchanged when `peerID` was already there and with
`peerID` appended last otherwise, so `peerID` occurs `max 1 (previous count)` times; when the
store keeps the account under its own `Id`, a second successful `GroupAddPeer` leaves the same
`Peers` as the first. `GroupAddPeer` succeeds when the collaborators do not fail. When `peerID`
is not in the group and the collaborators do not fail, `GroupDeletePeer` returns success, the
in-memory group is the stored one and the persisted accounts are untouched. Neither operation
stores an audit event, whatever its outcome. -/
theorem addPeer_idempotent_deletePeer_tolerant (env env2 : Env) (w : World)
    (accountID groupID peerID : String) (account : Account) (group : Group)
    (hacc : GetAccount w accountID = .ok account)
    (hg : mapGet account.Groups groupID = some group) :
    ((GroupAddPeer env w accountID groupID peerID).result = .ok () →
      ∃ saved g1,
        (GroupAddPeer env w accountID groupID peerID).account = some saved ∧
        mapGet (GroupAddPeer env w accountID groupID peerID).world.accounts account.Id
          = some saved ∧
        mapGet saved.Groups groupID = some g1 ∧
        g1.Peers = (if peerID ∈ group.Peers then group.Peers else group.Peers ++ [peerID]) ∧
        g1.Peers.count peerID = max 1 (group.Peers.count peerID) ∧
        (account.Id = accountID →
          (GroupAddPeer env2 (GroupAddPeer env w accountID groupID peerID).world
            accountID groupID peerID).result = .ok () →
          ∃ saved2 g2,
            (GroupAddPeer env2 (GroupAddPeer env w accountID groupID peerID).world
              accountID groupID peerID).account = some saved2 ∧
            mapGet saved2.Groups groupID = some g2 ∧ g2.Peers = g1.Peers)) ∧
    (env.succeeds → (GroupAddPeer env w accountID groupID peerID).result = .ok ()) ∧
    (GroupAddPeer env w accountID groupID peerID).world.events = w.events ∧
    (peerID ∉ group.Peers → env.succeeds →
      (GroupDeletePeer env w accountID groupID peerID).result = .ok () ∧
      (∃ pushed, (GroupDeletePeer env w accountID groupID peerID).account = some pushed ∧
        mapGet pushed.Groups groupID = some group) ∧
      (GroupDeletePeer env w accountID groupID peerID).world.accounts = w.accounts) ∧
    (GroupDeletePeer env w accountID groupID peerID).world.events = w.events := by
  refine ⟨?_, ?_, GroupAddPeer_events env w accountID groupID peerID, ?_,
    GroupDeletePeer_events env w accountID groupID peerID⟩
  · intro hok
    rw [GroupAddPeer_eq env w accountID groupID peerID account group hacc hg] at hok ⊢
    rw [persistAndPropagate_ok env w _ () () hok]
    have hid : (updatedAccount account groupID (addPeer group peerID)).Id = account.Id := rfl
    have hgrp : mapGet (updatedAccount account groupID (addPeer group peerID)).Groups groupID
        = some (addPeer group peerID) := by
      simp only [updatedAccount, Account.IncSerial, mapGet_mapSet_self]
    refine ⟨updatedAccount account groupID (addPeer group peerID), addPeer group peerID, rfl,
      ?_, hgrp, addPeer_peers group peerID, addPeer_count group peerID, ?_⟩
    · simp only [hid, mapGet_mapSet_self]
    · intro hId hok2
      have hacc2 : GetAccount
          { accounts := mapSet w.accounts
              (updatedAccount account groupID (addPeer group peerID)).Id
              (updatedAccount account groupID (addPeer group peerID)),
            trace := w.trace ++
              [.saveAccount (updatedAccount account groupID (addPeer group peerID)) none] ++
              [.updateAccountPeers (updatedAccount account groupID (addPeer group peerID))
                none] }
          accountID = .ok (updatedAccount account groupID (addPeer group peerID)) := by
        unfold GetAccount
        simp only [hid, hId, mapGet_mapSet_self]
      rw [GroupAddPeer_eq env2 _ accountID groupID peerID _ _ hacc2 hgrp] at hok2 ⊢
      rw [persistAndPropagate_ok env2 _ _ () () hok2]
      refine ⟨_, addPeer (addPeer group peerID) peerID, rfl, ?_, ?_⟩
      · simp only [updatedAccount, Account.IncSerial, mapGet_mapSet_self]
      · rw [addPeer_peers (addPeer group peerID) peerID]
        have hmem : peerID ∈ (addPeer group peerID).Peers := by
          rw [addPeer_peers]
          by_cases h : peerID ∈ group.Peers
          · rw [if_pos h]
            exact h
          · rw [if_neg h]
            exact List.mem_append.mpr (Or.inr (List.mem_singleton.mpr rfl))
        rw [if_pos hmem]
  · intro hs
    rw [GroupAddPeer_eq env w accountID groupID peerID account group hacc hg,
      persistAndPropagate_succeeds env w _ () (hs _ _).1 (hs _ _).2]
  · intro habs hs
    have hloop := deletePeerLoop_no_match env account.IncSerial groupID group peerID
      group.Peers.length 0 group.Peers group.Peers w
      (fun x hx e => habs (e ▸ (by simpa using hx)))
    have hg2 : mapGet account.IncSerial.Groups groupID = some group := hg
    unfold GroupDeletePeer
    simp only [hacc, hg, hloop, updateAccountPeers, (hs _ _).2,
      setGroupPeers_self account.IncSerial groupID group hg2]
    exact ⟨trivial, ⟨_, rfl, hg⟩, trivial⟩

theorem addPeer_idempotent_deletePeer_tolerant_witness :
    GetAccount sampleWorld "acc" = .ok sampleAccount ∧
    (GroupAddPeer envOk sampleWorld "acc" "g1" "p3").result = .ok () ∧
    (GroupAddPeer envOk sampleWorld "acc" "g1" "p3").world.events = sampleWorld.events ∧
    (GroupDeletePeer envOk sampleWorld "acc" "g1" "p9").result = .ok () ∧
    (GroupDeletePeer envOk sampleWorld "acc" "g1" "p9").world.accounts
      = sampleWorld.accounts :=
  ⟨rfl,
    (addPeer_idempotent_deletePeer_tolerant envOk envOk sampleWorld "acc" "g1" "p3"
      sampleAccount { ID := "g1", Name := "G1", Issued := "api", Peers := ["p1", "p2"] }
      rfl rfl).2.1 (fun _ _ => ⟨rfl, rfl⟩),
    (addPeer_idempotent_deletePeer_tolerant envOk envOk sampleWorld "acc" "g1" "p3"
      sampleAccount { ID := "g1", Name := "G1", Issued := "api", Peers := ["p1", "p2"] }
      rfl rfl).2.2.1,
    ((addPeer_idempotent_deletePeer_tolerant envOk envOk sampleWorld "acc" "g1" "p9"
      sampleAccount { ID := "g1", Name := "G1", Issued := "api", Peers := ["p1", "p2"] }
      rfl rfl).2.2.2.1 (by decide) (fun _ _ => ⟨rfl, rfl⟩)).1,
    ((addPeer_idempotent_deletePeer_tolerant envOk envOk sampleWorld "acc" "g1" "p9"
      sampleAccount { ID := "g1", Name := "G1", Issued := "api", Peers := ["p1", "p2"] }
      rfl rfl).2.2.2.1 (by decide) (fun _ _ => ⟨rfl, rfl⟩)).2.2⟩

/-! ## Key/ID consistency -/

theorem keysConsistent_mapSet (account : Account) (k : String) (g : Group)
    (hinv : KeysConsistent account) (hk : g.ID = k) :
    KeysConsistent (updatedAccount account k g) := by
  intro k1 g1 h1
  simp only [updatedAccount, Account.IncSerial, mapGet_mapSet] at h1
  by_cases hkk : k1 = k
  · rw [if_pos hkk] at h1
    rw [← Option.some.inj h1, hk, hkk]
  · rw [if_neg hkk] at h1
    exact hinv k1 g1 h1

theorem keysConsistent_deleted (account : Account) (k : String)
    (hinv : KeysConsistent account) : KeysConsistent (deletedAccount account k) := by
  intro k1 g1 h1
  simp only [deletedAccount, Account.IncSerial] at h1
  by_cases hkk : k1 = k
  · rw [hkk, mapGet_mapDelete_self] at h1
    exact Option.noConfusion h1
  · rw [mapGet_mapDelete_of_ne _ _ _ hkk] at h1
    exact hinv k1 g1 h1

theorem keysConsistent_setGroupPeers (account : Account) (k : String) (g : Group)
    (peers : List String) (hinv : KeysConsistent account) (hk : g.ID = k) :
    KeysConsistent (setGroupPeers account.IncSerial k g peers) := by
  intro k1 g1 h1
  simp only [setGroupPeers, Account.IncSerial, mapGet_mapSet] at h1
  by_cases hkk : k1 = k
  · rw [if_pos hkk] at h1
    rw [← Option.some.inj h1, hkk]
    exact hk
  · rw [if_neg hkk] at h1
    exact hinv k1 g1 h1

theorem getAccount_mapSet (accounts : List (String × Account)) (trace : List Effect)
    (saved : Account) (accountID : String) (a : Account) (P : Account → Prop)
    (hsaved : P saved)
    (hold : ∀ b, mapGet accounts accountID = some b → P b)
    (h : GetAccount { accounts := mapSet accounts saved.Id saved, trace := trace } accountID
      = .ok a) : P a := by
  unfold GetAccount at h
  simp only [mapGet_mapSet] at h
  by_cases hid : accountID = saved.Id
  · rw [if_pos hid] at h
    cases Except.ok.inj h
    exact hsaved
  · rw [if_neg hid] at h
    cases hm : mapGet accounts accountID with
    | none =>
      rw [hm] at h
      exact Except.noConfusion h
    | some b =>
      rw [hm] at h
      have hab := Except.ok.inj h
      exact hab ▸ hold b hm

theorem getAccount_same (accounts : List (String × Account)) (trace : List Effect)
    (accountID : String) (a : Account) (P : Account → Prop)
    (hold : ∀ b, mapGet accounts accountID = some b → P b)
    (h : GetAccount { accounts := accounts, trace := trace } accountID = .ok a) : P a := by
  unfold GetAccount at h
  cases hm : mapGet accounts accountID with
  | none =>
    simp only [hm] at h
    exact Except.noConfusion h
  | some b =>
    simp only [hm] at h
    have hab := Except.ok.inj h
    exact hab ▸ hold b hm

theorem stored_consistent (w : World) (accountID : String) (account : Account)
    (hacc : GetAccount w accountID = .ok account) (hinv : KeysConsistent account) :
    ∀ b, mapGet w.accounts accountID = some b → KeysConsistent b := by
  intro b hb
  unfold GetAccount at hacc
  simp only [hb] at hacc
  cases Except.ok.inj hacc
  exact hinv

theorem persistAndPropagate_preserves {α : Type} (env : Env) (w : World) (saved : Account)
    (r : α) (accountID : String) (hsaved : KeysConsistent saved)
    (hold : ∀ b, mapGet w.accounts accountID = some b → KeysConsistent b) :
    PreservesKeys (persistAndPropagate env w saved r) accountID := by
  constructor
  · intro a ha
    rw [persistAndPropagate_account] at ha
    cases Option.some.inj ha
    exact hsaved
  · intro a ha
    unfold persistAndPropagate SaveAccount updateAccountPeers at ha
    cases hs : env.saveAccountErr w.trace saved with
    | some e =>
      simp only [hs] at ha
      exact getAccount_same _ _ accountID a _ hold ha
    | none =>
      simp only [hs] at ha
      cases hu : env.updateAccountPeersErr (w.trace ++ [.saveAccount saved none]) saved with
      | some e =>
        simp only [hu] at ha
        exact getAccount_mapSet _ _ saved accountID a _ hsaved hold ha
      | none =>
        simp only [hu] at ha
        exact getAccount_mapSet _ _ saved accountID a _ hsaved hold ha

theorem applyOperation_fields (group group1 : Group) (operation : GroupUpdateOperation)
    (h : applyOperation group operation = some group1) :
    group1.ID = group.ID ∧ group1.Issued = group.Issued := by
  unfold applyOperation at h
  split_ifs at h with h0 h3 h1 h2
  · cases hv : operation.Values with
    | nil =>
      rw [hv] at h
      exact Option.noConfusion h
    | cons name rest =>
      rw [hv] at h
      cases Option.some.inj h
      exact ⟨rfl, rfl⟩
  · cases Option.some.inj h
    exact ⟨rfl, rfl⟩
  · cases Option.some.inj h
    exact ⟨rfl, rfl⟩
  · cases Option.some.inj h
    exact ⟨rfl, rfl⟩
  · cases Option.some.inj h
    exact ⟨rfl, rfl⟩

theorem applyOperations_fields (group group1 : Group) (operations : List GroupUpdateOperation)
    (h : applyOperations group operations = some group1) :
    group1.ID = group.ID ∧ group1.Issued = group.Issued := by
  induction operations generalizing group with
  | nil =>
    cases Option.some.inj h
    exact ⟨rfl, rfl⟩
  | cons op rest ih =>
    unfold applyOperations at h
    cases hop : applyOperation group op with
    | none =>
      rw [hop] at h
      exact Option.noConfusion h
    | some g2 =>
      rw [hop] at h
      have h2 := applyOperation_fields group g2 op hop
      have h3 := ih g2 h
      exact ⟨h3.1.trans h2.1, h3.2.trans h2.2⟩

/-- The loop of `GroupDeletePeer` persists only accounts of the form
`setGroupPeers account groupID group peers`. -/
theorem deletePeerLoop_accounts (env : Env) (account : Account) (groupID : String)
    (group : Group) (peerKey : String) (P : Account → Prop) (accountID : String)
    (hP : ∀ peers, P (setGroupPeers account groupID group peers))
    (fuel i : Nat) (backing peers : List String) (w : World)
    (hold : ∀ b, mapGet w.accounts accountID = some b → P b) :
    ∀ b, mapGet (deletePeerLoop env account groupID group peerKey fuel i backing peers
      w).world.accounts accountID = some b → P b := by
  induction fuel generalizing i backing peers w with
  | zero => exact hold
  | succ fuel ih =>
    unfold deletePeerLoop
    cases hb : backing[i]? with
    | none => exact hold
    | some itemID =>
      simp only []
      by_cases hm : itemID = peerKey
      · simp only [hm, if_true]
        by_cases hlen : peers.length < i + 1
        · simp only [hlen, if_true]
          exact hold
        · simp only [hlen, if_false]
          unfold SaveAccount
          cases hs : env.saveAccountErr w.trace (setGroupPeers account groupID group
              (List.take i backing ++ List.drop (i + 1) peers)) with
          | some e => exact hold
          | none =>
            simp only []
            apply ih
            intro b hb2
            simp only [mapGet_mapSet] at hb2
            by_cases hid : accountID = (setGroupPeers account groupID group
                (List.take i backing ++ List.drop (i + 1) peers)).Id
            · rw [if_pos hid] at hb2
              cases Option.some.inj hb2
              exact hP _
            · rw [if_neg hid] at hb2
              exact hold b hb2
      · simp only [hm, if_false]
        exact ih (i + 1) backing peers w hold

theorem addPeer_ID (group : Group) (peerID : String) : (addPeer group peerID).ID = group.ID := by
  unfold addPeer
  split_ifs <;> rfl

theorem preservesKeys_unchanged {α : Type} (r : Result α) (w : World) (accountID : String)
    (account : Account) (hacc : GetAccount w accountID = .ok account)
    (hinv : KeysConsistent account) :
    PreservesKeys (⟨r, some account, w⟩ : Outcome α) accountID := by
  constructor
  · intro a ha
    cases Option.some.inj ha
    exact hinv
  · intro a ha
    have hw : (⟨r, some account, w⟩ : Outcome α).world = w := rfl
    rw [hw, hacc] at ha
    cases Except.ok.inj ha
    exact hinv

theorem SaveGroup_preserves (env : Env) (w : World) (accountID userID : String)
    (newGroup : Group) (account : Account) (hacc : GetAccount w accountID = .ok account)
    (hinv : KeysConsistent account) :
    PreservesKeys (SaveGroup env w accountID userID newGroup) accountID := by
  have hsaved : KeysConsistent (savedAccount account newGroup) :=
    keysConsistent_mapSet account newGroup.ID newGroup hinv rfl
  have hold := stored_consistent w accountID account hacc hinv
  constructor
  · intro a ha
    rw [SaveGroup_account env w accountID userID newGroup account hacc] at ha
    cases Option.some.inj ha
    exact hsaved
  · intro a ha
    rw [SaveGroup_eq env w accountID userID newGroup account hacc] at ha
    cases hs : env.saveAccountErr w.trace (savedAccount account newGroup) with
    | some e =>
      rw [hs] at ha
      exact getAccount_same _ _ accountID a _ hold ha
    | none =>
      rw [hs] at ha
      cases hu : env.updateAccountPeersErr
          (w.trace ++ [.saveAccount (savedAccount account newGroup) none])
          (savedAccount account newGroup) with
      | some e =>
        rw [hu] at ha
        exact getAccount_mapSet _ _ _ accountID a _ hsaved hold ha
      | none =>
        rw [hu] at ha
        exact getAccount_mapSet _ _ _ accountID a _ hsaved hold ha

theorem UpdateGroup_preserves (env : Env) (w : World) (accountID groupID : String)
    (operations : List GroupUpdateOperation) (account : Account)
    (hacc : GetAccount w accountID = .ok account) (hinv : KeysConsistent account) :
    PreservesKeys (UpdateGroup env w accountID groupID operations) accountID := by
  cases hg : mapGet account.Groups groupID with
  | none =>
    unfold UpdateGroup
    simp only [hacc, hg]
    exact preservesKeys_unchanged _ w accountID account hacc hinv
  | some stored =>
    cases happ : applyOperations stored.Copy operations with
    | none =>
      unfold UpdateGroup
      simp only [hacc, hg, happ]
      exact preservesKeys_unchanged _ w accountID account hacc hinv
    | some group =>
      rw [UpdateGroup_eq env w accountID groupID operations account stored group hacc hg happ]
      have hid : group.ID = groupID := by
        rw [(applyOperations_fields stored.Copy group operations happ).1, Group.Copy_eq]
        exact hinv groupID stored hg
      exact persistAndPropagate_preserves env w _ group accountID
        (keysConsistent_mapSet account groupID group hinv hid)
        (stored_consistent w accountID account hacc hinv)

theorem DeleteGroup_preserves (env : Env) (w : World) (accountID userID groupID : String)
    (account : Account) (hacc : GetAccount w accountID = .ok account)
    (hinv : KeysConsistent account) :
    PreservesKeys (DeleteGroup env w accountID userID groupID) accountID := by
  have hold := stored_consistent w accountID account hacc hinv
  have hdel := keysConsistent_deleted account groupID hinv
  cases hg : mapGet account.Groups groupID with
  | none =>
    rw [DeleteGroup_absent env w accountID userID groupID account hacc hg]
    exact preservesKeys_unchanged _ w accountID account hacc hinv
  | some g =>
    cases hl : checkLinks account g groupID with
    | some e =>
      rw [DeleteGroup_linked env w accountID userID groupID account g e hacc hg hl]
      exact preservesKeys_unchanged _ w accountID account hacc hinv
    | none =>
      rw [DeleteGroup_unlinked env w accountID userID groupID account g hacc hg hl]
      cases hs : env.saveAccountErr w.trace (deletedAccount account groupID) with
      | some e =>
        refine ⟨fun a ha => ?_, fun a ha => getAccount_same _ _ accountID a _ hold ha⟩
        cases Option.some.inj ha
        exact hdel
      | none =>
        simp only []
        cases hu : env.updateAccountPeersErr
            (w.trace ++ [.saveAccount (deletedAccount account groupID) none] ++
              [.storeEvent (groupDeletedEvent userID groupID accountID g)])
            (deletedAccount account groupID) with
        | some e =>
          refine ⟨fun a ha => ?_,
            fun a ha => getAccount_mapSet _ _ _ accountID a _ hdel hold ha⟩
          cases Option.some.inj ha
          exact hdel
        | none =>
          refine ⟨fun a ha => ?_,
            fun a ha => getAccount_mapSet _ _ _ accountID a _ hdel hold ha⟩
          cases Option.some.inj ha
          exact hdel

theorem GroupAddPeer_preserves (env : Env) (w : World) (accountID groupID peerID : String)
    (account : Account) (hacc : GetAccount w accountID = .ok account)
    (hinv : KeysConsistent account) :
    PreservesKeys (GroupAddPeer env w accountID groupID peerID) accountID := by
  cases hg : mapGet account.Groups groupID with
  | none =>
    unfold GroupAddPeer
    simp only [hacc, hg]
    exact preservesKeys_unchanged _ w accountID account hacc hinv
  | some group =>
    rw [GroupAddPeer_eq env w accountID groupID peerID account group hacc hg]
    have hid : (addPeer group peerID).ID = groupID := by
      rw [addPeer_ID]
      exact hinv groupID group hg
    exact persistAndPropagate_preserves env w _ () accountID
      (keysConsistent_mapSet account groupID _ hinv hid)
      (stored_consistent w accountID account hacc hinv)

theorem GroupDeletePeer_preserves (env : Env) (w : World) (accountID groupID peerKey : String)
    (account : Account) (hacc : GetAccount w accountID = .ok account)
    (hinv : KeysConsistent account) :
    PreservesKeys (GroupDeletePeer env w accountID groupID peerKey) accountID := by
  have hold := stored_consistent w accountID account hacc hinv
  cases hg : mapGet account.Groups groupID with
  | none =>
    unfold GroupDeletePeer
    simp only [hacc, hg]
    exact preservesKeys_unchanged _ w accountID account hacc hinv
  | some group =>
    have hid : group.ID = groupID := hinv groupID group hg
    have hP : ∀ peers, KeysConsistent (setGroupPeers account.IncSerial groupID group peers) :=
      fun peers => keysConsistent_setGroupPeers account groupID group peers hinv hid
    have hacts := deletePeerLoop_accounts env account.IncSerial groupID group peerKey
      KeysConsistent accountID hP group.Peers.length 0 group.Peers group.Peers w hold
    unfold GroupDeletePeer
    simp only [hacc, hg]
    cases hloop : deletePeerLoop env account.IncSerial groupID group peerKey
        group.Peers.length 0 group.Peers group.Peers w with
    | crashed peers w1 =>
      rw [hloop] at hacts
      simp only [LoopEnd.world] at hacts
      refine ⟨fun a ha => ?_, fun a ha => getAccount_same _ _ accountID a _ hacts ha⟩
      cases Option.some.inj ha
      exact hP peers
    | failed e peers w1 =>
      rw [hloop] at hacts
      simp only [LoopEnd.world] at hacts
      refine ⟨fun a ha => ?_, fun a ha => getAccount_same _ _ accountID a _ hacts ha⟩
      cases Option.some.inj ha
      exact hP peers
    | done peers w1 =>
      rw [hloop] at hacts
      simp only [LoopEnd.world] at hacts
      simp only [updateAccountPeers]
      cases hu : env.updateAccountPeersErr w1.trace
          (setGroupPeers account.IncSerial groupID group peers) with
      | some e =>
        refine ⟨fun a ha => ?_, fun a ha => getAccount_same _ _ accountID a _ hacts ha⟩
        cases Option.some.inj ha
        exact hP peers
      | none =>
        refine ⟨fun a ha => ?_, fun a ha => getAccount_same _ _ accountID a _ hacts ha⟩
        cases Option.some.inj ha
        exact hP peers

/-- C20: key/ID consistency is an invariant of the group collection. When every key of the
groups of the loaded account maps to a group with that ID, then at the return of `SaveGroup`,
`UpdateGroup` (for any batch), `DeleteGroup`, `GroupAddPeer` and `GroupDeletePeer`, whatever
the outcome, the same holds of the in-memory account the call worked on and of the account
the store returns for `accountID`. The operations of `UpdateGroup` never change the `ID` or
the `Issued` field: a group returned by `UpdateGroup` has those of the stored group. -/
theorem keys_consistent_invariant (env : Env) (w : World)
    (accountID userID groupID peerID : String) (newGroup : Group)
    (operations : List GroupUpdateOperation) (account : Account)
    (hacc : GetAccount w accountID = .ok account)
    (hinv : KeysConsistent account) :
    PreservesKeys (SaveGroup env w accountID userID newGroup) accountID ∧
    PreservesKeys (UpdateGroup env w accountID groupID operations) accountID ∧
    PreservesKeys (DeleteGroup env w accountID userID groupID) accountID ∧
    PreservesKeys (GroupAddPeer env w accountID groupID peerID) accountID ∧
    PreservesKeys (GroupDeletePeer env w accountID groupID peerID) accountID ∧
    (∀ group group1 : Group, applyOperations group operations = some group1 →
      group1.ID = group.ID ∧ group1.Issued = group.Issued) ∧
    (∀ stored group : Group, mapGet account.Groups groupID = some stored →
      (UpdateGroup env w accountID groupID operations).result = .ok group →
      group.ID = stored.ID ∧ group.Issued = stored.Issued) := by
  refine ⟨SaveGroup_preserves env w accountID userID newGroup account hacc hinv,
    UpdateGroup_preserves env w accountID groupID operations account hacc hinv,
    DeleteGroup_preserves env w accountID userID groupID account hacc hinv,
    GroupAddPeer_preserves env w accountID groupID peerID account hacc hinv,
    GroupDeletePeer_preserves env w accountID groupID peerID account hacc hinv,
    fun group group1 h => applyOperations_fields group group1 operations h, ?_⟩
  intro stored group hg hok
  cases happ : applyOperations stored operations with
  | none =>
    unfold UpdateGroup at hok
    simp only [hacc, hg, Group.Copy_eq, happ] at hok
    exact Result.noConfusion hok
  | some group1 =>
    have hres := UpdateGroup_result env w accountID groupID operations account stored group1
      hacc hg happ
    rw [hres.1 group hok]
    exact applyOperations_fields stored group1 operations happ

theorem keys_consistent_invariant_witness :
    GetAccount sampleWorld "acc" = .ok sampleAccount ∧
    KeysConsistent sampleAccount ∧
    PreservesKeys (SaveGroup envOk sampleWorld "acc" "u" freshGroup) "acc" ∧
    PreservesKeys (UpdateGroup envOk sampleWorld "acc" "g1"
      [⟨UpdateGroupName, ["renamed"]⟩, ⟨UpdateGroupPeers, ["p3"]⟩]) "acc" ∧
    PreservesKeys (DeleteGroup envOk sampleWorld "acc" "u" "g1") "acc" ∧
    PreservesKeys (GroupAddPeer envOk sampleWorld "acc" "g1" "p3") "acc" ∧
    PreservesKeys (GroupDeletePeer envOk sampleWorld "acc" "g1" "p3") "acc" :=
  have hinv : KeysConsistent sampleAccount := by
    intro k g h
    simp only [sampleAccount, mapGet] at h
    by_cases hk : "g1" = k
    · rw [if_pos hk] at h
      rw [← Option.some.inj h]
      exact hk
    · rw [if_neg hk] at h
      exact Option.noConfusion h
  ⟨rfl, hinv,
    (keys_consistent_invariant envOk sampleWorld "acc" "u" "g1" "p3" freshGroup
      [⟨UpdateGroupName, ["renamed"]⟩, ⟨UpdateGroupPeers, ["p3"]⟩] sampleAccount rfl hinv).1,
    (keys_consistent_invariant envOk sampleWorld "acc" "u" "g1" "p3" freshGroup
      [⟨UpdateGroupName, ["renamed"]⟩, ⟨UpdateGroupPeers, ["p3"]⟩] sampleAccount rfl
      hinv).2.1,
    (keys_consistent_invariant envOk sampleWorld "acc" "u" "g1" "p3" freshGroup
      [⟨UpdateGroupName, ["renamed"]⟩, ⟨UpdateGroupPeers, ["p3"]⟩] sampleAccount rfl
      hinv).2.2.1,
    (keys_consistent_invariant envOk sampleWorld "acc" "u" "g1" "p3" freshGroup
      [⟨UpdateGroupName, ["renamed"]⟩, ⟨UpdateGroupPeers, ["p3"]⟩] sampleAccount rfl
      hinv).2.2.2.1,
    (keys_consistent_invariant envOk sampleWorld "acc" "u" "g1" "p3" freshGroup
      [⟨UpdateGroupName, ["renamed"]⟩, ⟨UpdateGroupPeers, ["p3"]⟩] sampleAccount rfl
      hinv).2.2.2.2.1⟩

/-! ## The event store -/

theorem eq_of_map_eq_of_injOn {α β : Type} (f : α → β) (l1 l2 : List α)
    (hmap : l1.map f = l2.map f)
    (hinj : ∀ x ∈ l1, ∀ y ∈ l2, f x = f y → x = y) : l1 = l2 := by
  induction l1 generalizing l2 with
  | nil =>
    cases l2 with
    | nil => rfl
    | cons y r => simp at hmap
  | cons x r ih =>
    cases l2 with
    | nil => simp at hmap
    | cons y r2 =>
      simp only [List.map_cons, List.cons.injEq] at hmap
      have hxy : x = y := hinj x (List.mem_cons_self x r) y (List.mem_cons_self y r2) hmap.1
      have hr : r = r2 := ih r2 hmap.2
        (fun a ha b hb => hinj a (List.mem_cons_of_mem x ha) b (List.mem_cons_of_mem y hb))
      rw [hxy, hr]

theorem processResult_eq (result : List sqlite.Event) :
    sqlite.processResult result = .ok result := by
  unfold sqlite.processResult
  have h : (fun row : sqlite.Event =>
      ({ Timestamp := row.Timestamp, Activity := row.Activity, ID := row.ID,
         InitiatorID := row.InitiatorID, TargetID := row.TargetID,
         AccountID := row.AccountID, Meta := row.Meta } : sqlite.Event)) = id := by
    funext row
    cases row
    rfl
  rw [h, List.map_id]

/-- With timestamps that are pairwise different, the descending order of an admissible engine
is the reverse of its ascending order. -/
theorem orderBy_desc_eq_reverse (eng : sqlite.Engine) (hv : eng.Valid)
    (rows : List sqlite.Event) (hd : (rows.map (fun r => r.Timestamp)).Nodup) :
    eng.orderBy true rows = (eng.orderBy false rows).reverse := by
  obtain ⟨hpd, hsd, hpa, hsa⟩ := hv rows
  have hperm : (eng.orderBy true rows).Perm (eng.orderBy false rows).reverse :=
    hpd.trans (hpa.symm.trans (List.reverse_perm _).symm)
  have hsr : (eng.orderBy false rows).reverse.Pairwise
      (fun a b => b.Timestamp ≤ a.Timestamp) := List.pairwise_reverse.mpr hsa
  have hmap : (eng.orderBy true rows).map (fun r => r.Timestamp) =
      (eng.orderBy false rows).reverse.map (fun r => r.Timestamp) := by
    apply List.eq_of_perm_of_sorted (r := fun a b : Nat => b ≤ a) (hperm.map _)
    · exact (List.pairwise_map).mpr hsd
    · exact (List.pairwise_map).mpr hsr
  apply eq_of_map_eq_of_injOn (fun r : sqlite.Event => r.Timestamp) _ _ hmap
  intro x hx y hy hxy
  have hx2 : x ∈ rows := hpd.mem_iff.mp hx
  have hy2 : y ∈ rows := hpa.mem_iff.mp (List.mem_reverse.mp hy)
  exact List.inj_on_of_nodup_map hd hx2 hy2 hxy

/-- C17 (as corrected): for an open store, an engine that meets the contract of
`ORDER BY timestamp`, and an account whose stored events, at most `n` of them, have pairwise
different timestamps, `Get(accountID, 0, n, false)` returns all of these events and
`Get(accountID, 0, n, true)` returns the same sequence reversed. -/
theorem get_descending_reverses_ascending (eng : sqlite.Engine) (store : sqlite.Store)
    (accountID : String) (n : Nat)
    (hv : eng.Valid)
    (hopen : store.closed = false)
    (hn : (store.rows.filter (fun r => decide (r.AccountID = accountID))).length ≤ n)
    (hd : ((store.rows.filter (fun r => decide (r.AccountID = accountID))).map
      (fun r => r.Timestamp)).Nodup) :
    ∃ events,
      sqlite.Store.Get eng store accountID 0 n false = .ok events ∧
      sqlite.Store.Get eng store accountID 0 n true = .ok events.reverse ∧
      events.Perm (store.rows.filter (fun r => decide (r.AccountID = accountID))) := by
  obtain ⟨hpd, _, hpa, _⟩ := hv (store.rows.filter (fun r => decide (r.AccountID = accountID)))
  have hrev := orderBy_desc_eq_reverse eng hv _ hd
  have hneg : ¬ ((n : Int) < 0) := by omega
  have hla : (eng.orderBy false
      (store.rows.filter (fun r => decide (r.AccountID = accountID)))).length ≤ n := by
    rw [hpa.length_eq]
    exact hn
  have hld : (eng.orderBy true
      (store.rows.filter (fun r => decide (r.AccountID = accountID)))).length ≤ n := by
    rw [hpd.length_eq]
    exact hn
  refine ⟨eng.orderBy false (store.rows.filter (fun r => decide (r.AccountID = accountID))),
    ?_, ?_, hpa⟩
  · unfold sqlite.Store.Get sqlite.selectQuery
    simp only [hopen, Bool.false_eq_true, if_false, hneg, Int.toNat_zero, List.drop_zero,
      Int.toNat_ofNat, processResult_eq, List.take_of_length_le hla]
  · unfold sqlite.Store.Get sqlite.selectQuery
    rw [hrev] at hld
    simp only [hopen, Bool.false_eq_true, if_false, hneg, Int.toNat_zero, List.drop_zero,
      Int.toNat_ofNat, processResult_eq, hrev, List.take_of_length_le hld]

theorem stableEngine_valid : sqlite.stableEngine.Valid := by
  intro rows
  haveI : IsTotal sqlite.Event (fun a b => b.Timestamp ≤ a.Timestamp) :=
    ⟨fun a b => Nat.le_total _ _⟩
  haveI : IsTrans sqlite.Event (fun a b => b.Timestamp ≤ a.Timestamp) :=
    ⟨fun a b c hab hbc => Nat.le_trans hbc hab⟩
  haveI : IsTotal sqlite.Event (fun a b => a.Timestamp ≤ b.Timestamp) :=
    ⟨fun a b => Nat.le_total _ _⟩
  haveI : IsTrans sqlite.Event (fun a b => a.Timestamp ≤ b.Timestamp) :=
    ⟨fun a b c hab hbc => Nat.le_trans hab hbc⟩
  refine ⟨?_, ?_, ?_, ?_⟩
  · exact List.perm_insertionSort _ rows
  · exact List.sorted_insertionSort (fun a b : sqlite.Event => b.Timestamp ≤ a.Timestamp) rows
  · exact List.perm_insertionSort _ rows
  · exact List.sorted_insertionSort (fun a b : sqlite.Event => a.Timestamp ≤ b.Timestamp) rows

theorem get_descending_reverses_ascending_witness :
    sqlite.stableEngine.Valid ∧
    sqlite.distinctStore.closed = false ∧
    ∃ events,
      sqlite.Store.Get sqlite.stableEngine sqlite.distinctStore "acc" 0 (3 : Nat) false
        = .ok events ∧
      sqlite.Store.Get sqlite.stableEngine sqlite.distinctStore "acc" 0 (3 : Nat) true
        = .ok events.reverse ∧
      events.Perm (sqlite.distinctStore.rows.filter (fun r => decide (r.AccountID = "acc"))) :=
  ⟨stableEngine_valid, rfl,
    get_descending_reverses_ascending sqlite.stableEngine sqlite.distinctStore "acc" 3
      stableEngine_valid rfl (by decide) (by decide)⟩

/-- C17, counterexample: three events saved for account `acc`, the first two with the same
timestamp, and an engine that meets the contract of `ORDER BY timestamp` and keeps rows with
equal timestamps in the order of the table. `Get(acc, 0, 3, true)` returns the events with ids
3, 1, 2 and `Get(acc, 0, 3, false)` those with ids 1, 2, 3: the first is not the reverse of
the second. -/
theorem get_equal_timestamps_not_reversed :
    sqlite.stableEngine.Valid ∧
    (sqlite.tieStore.rows.filter (fun r => decide (r.AccountID = "acc"))).length = 3 ∧
    (∃ desc asc,
      sqlite.Store.Get sqlite.stableEngine sqlite.tieStore "acc" 0 3 true = .ok desc ∧
      sqlite.Store.Get sqlite.stableEngine sqlite.tieStore "acc" 0 3 false = .ok asc ∧
      desc.map (fun e => e.ID) = [3, 1, 2] ∧ asc.map (fun e => e.ID) = [1, 2, 3] ∧
      desc ≠ asc.reverse) := by
  refine ⟨stableEngine_valid, by decide, _, _, rfl, rfl, by decide, by decide, by decide⟩

end Netbird
